import Mathlib

/-!
# SimpleVector (simple_vector.h): a shallow embedding and its verified properties

The container keeps three members: the owning buffer `array_vector_`, the logical size `size_`
and the capacity `capacity_`. The model keeps the same three members.

Modelling conventions.

* `size_t` values are natural numbers. A capacity is the slot count of a buffer that was
  allocated, and no allocation of `2^63` or more slots succeeds, so `capacity_ * 2` never wraps
  for a capacity the program can hold; allocation failure (fatal in the design) is outside the model.
* Every raw access is checked by the model: an access outside the allocation, an invalid pointer
  range, or the use of an iterator into a released buffer has no defined behaviour in C++ and makes
  the modelled operation stop with `Failure.undefined`. A result `Except.ok` therefore also says
  that the operation ran without undefined behaviour.
* Iterators are raw pointers into the buffer. A position handed to `Insert` or `Erase` is modelled
  by its offset from `begin()` at the moment of the call.
* A freshly allocated buffer holds unspecified values: slot `i` of it holds `junk i`, for an
  arbitrary function `junk` that every allocating operation takes as a parameter.
-/

/-- The ways an operation can stop without a result. -/
inductive Failure where
  /-- The exception `std::out_of_range(what)`. -/
  | out_of_range (what : String)
  /-- A failed `assert`. -/
  | assertion
  /-- No defined behaviour: raw access outside the allocation, invalid range, dangling iterator. -/
  | undefined
deriving DecidableEq, Repr

/-- Results of operations can be compared by evaluation. -/
instance instDecidableEqExceptFailure {ε β : Type} [DecidableEq ε] [DecidableEq β] :
    DecidableEq (Except ε β)
  | .ok a, .ok b => if h : a = b then isTrue (by rw [h]) else isFalse (by intro e; cases e; exact h rfl)
  | .error a, .error b =>
    if h : a = b then isTrue (by rw [h]) else isFalse (by intro e; cases e; exact h rfl)
  | .ok _, .error _ => isFalse (by intro e; cases e)
  | .error _, .ok _ => isFalse (by intro e; cases e)

/-- Modelled from the spec: the fixed-size buffer owner `ArrayPtr<Type>` of array_ptr.h, which is
not among the sources. It owns one allocation of a fixed number of slots (none when created with
zero), gives raw indexed access without any bounds check, and can only be swapped or moved. -/
structure ArrayPtr (α : Type) where
  /-- The allocated slots, in index order. -/
  slots : List α
deriving DecidableEq, Repr

namespace ArrayPtr

variable {α : Type}

/-- Modelled from the spec: the default state, no allocation. -/
def null : ArrayPtr α := ⟨[]⟩

/-- Modelled from the spec: `create(n)` allocates exactly `n` slots; their values are
unspecified (`junk`). -/
def create (junk : Nat → α) (size : Nat) : ArrayPtr α := ⟨(List.range size).map junk⟩

/-- Modelled from the spec: `rawAccess(i)` used for reading; defined only inside the allocation. -/
def read (a : ArrayPtr α) (index : Nat) : Except Failure α :=
  match a.slots[index]? with
  | some x => .ok x
  | none => .error .undefined

/-- Modelled from the spec: `rawAccess(i)` used for assignment; defined only inside the
allocation. -/
def write (a : ArrayPtr α) (index : Nat) (x : α) : Except Failure (ArrayPtr α) :=
  if index < a.slots.length then .ok ⟨a.slots.set index x⟩ else .error .undefined

/-- Modelled from the spec: `swapWith(other)`, the exchange of the owned storage. The result is
(new storage of `a`, new storage of `b`). -/
def swap (a b : ArrayPtr α) : ArrayPtr α × ArrayPtr α := (b, a)

/-- Modelled from the spec: a move transfers the allocation and leaves the source empty. The
result is (the new owner, the source after the move). -/
def move (a : ArrayPtr α) : ArrayPtr α × ArrayPtr α := (a, null)

end ArrayPtr

/-! ## The standard algorithms the container calls, as index loops over buffers -/

section Algorithms

variable {α : Type}

/-- Loop of `std::copy` / `std::move(first, last, d_first)` between two different buffers:
`*d_first++ = *first++`, lowest index first, `n` times. -/
def copy_loop (src : ArrayPtr α) (first : Nat) (dst : ArrayPtr α) (d_first : Nat) :
    Nat → Except Failure (ArrayPtr α)
  | 0 => .ok dst
  | n + 1 => do
    let x ← src.read first
    let dst1 ← dst.write d_first x
    copy_loop src (first + 1) dst1 (d_first + 1) n

/-- `std::copy(first, last, d_first)` and the three-argument `std::move`, source and destination
in different buffers. -/
def std_copy (src : ArrayPtr α) (first last : Nat) (dst : ArrayPtr α) (d_first : Nat) :
    Except Failure (ArrayPtr α) :=
  if first ≤ last then copy_loop src first dst d_first (last - first) else .error .undefined

/-- Loop of `std::move(first, last, d_first)` inside one buffer: every step reads the buffer as
the earlier steps left it. -/
def move_loop (a : ArrayPtr α) (first d_first : Nat) : Nat → Except Failure (ArrayPtr α)
  | 0 => .ok a
  | n + 1 => do
    let x ← a.read first
    let a1 ← a.write d_first x
    move_loop a1 (first + 1) (d_first + 1) n

/-- `std::move(first, last, d_first)` with all three positions in the same buffer. -/
def std_move (a : ArrayPtr α) (first last d_first : Nat) : Except Failure (ArrayPtr α) :=
  if first ≤ last then move_loop a first d_first (last - first) else .error .undefined

/-- Loop of `std::move_backward` / `std::copy_backward`: `*(--d_last) = *(--last)`, highest index
first; with `n + 1` steps left, the next one moves slot `first + n` to slot `d_first + n`. -/
def move_backward_loop (a : ArrayPtr α) (first d_first : Nat) : Nat → Except Failure (ArrayPtr α)
  | 0 => .ok a
  | n + 1 => do
    let x ← a.read (first + n)
    let a1 ← a.write (d_first + n) x
    move_backward_loop a1 first d_first n

/-- `std::move_backward(first, last, d_last)` and `std::copy_backward`, inside one buffer. -/
def std_move_backward (a : ArrayPtr α) (first last d_last : Nat) : Except Failure (ArrayPtr α) :=
  if first ≤ last ∧ last - first ≤ d_last then
    move_backward_loop a first (d_last - (last - first)) (last - first)
  else .error .undefined

/-- Loop of `std::fill` and `std::generate`: assign `n` slots from `first` upwards. -/
def fill_loop (a : ArrayPtr α) (first : Nat) (value : α) : Nat → Except Failure (ArrayPtr α)
  | 0 => .ok a
  | n + 1 => do
    let a1 ← a.write first value
    fill_loop a1 (first + 1) value n

/-- `std::fill(first, last, value)`. -/
def std_fill (a : ArrayPtr α) (first last : Nat) (value : α) : Except Failure (ArrayPtr α) :=
  if first ≤ last then fill_loop a first value (last - first) else .error .undefined

/-- Loop of the three-iterator `std::equal`: stop with `false` at the first unequal pair. -/
def equal_loop [BEq α] (a : ArrayPtr α) (first1 : Nat) (b : ArrayPtr α) (first2 : Nat) :
    Nat → Except Failure Bool
  | 0 => .ok true
  | n + 1 => do
    let x ← a.read first1
    let y ← b.read first2
    if x == y then equal_loop a (first1 + 1) b (first2 + 1) n else pure false

/-- `std::equal(first1, last1, first2)`. -/
def std_equal [BEq α] (a : ArrayPtr α) (first1 last1 : Nat) (b : ArrayPtr α) (first2 : Nat) :
    Except Failure Bool :=
  if first1 ≤ last1 then equal_loop a first1 b first2 (last1 - first1) else .error .undefined

/-- Loop of `std::lexicographical_compare(first1, last1, first2, last2)` with the element
`operator<` given as `less`; `n1` and `n2` are the distances still to go in the two ranges. While
both ranges have elements: `true` if `*first1 < *first2`, `false` if `*first2 < *first1`,
otherwise both advance. At the end: `(first1 == last1) && (first2 != last2)`. -/
def lexicographical_compare_loop (less : α → α → Bool) (a : ArrayPtr α) (first1 : Nat)
    (b : ArrayPtr α) (first2 : Nat) : Nat → Nat → Except Failure Bool
  | n1 + 1, n2 + 1 => do
    let x ← a.read first1
    let y ← b.read first2
    if less x y then pure true
    else if less y x then pure false
    else lexicographical_compare_loop less a (first1 + 1) b (first2 + 1) n1 n2
  | 0, _ + 1 => pure true
  | _, 0 => pure false

/-- `std::lexicographical_compare(first1, last1, first2, last2)`. -/
def std_lexicographical_compare (less : α → α → Bool) (a : ArrayPtr α) (first1 last1 : Nat)
    (b : ArrayPtr α) (first2 last2 : Nat) : Except Failure Bool :=
  if first1 ≤ last1 ∧ first2 ≤ last2 then
    lexicographical_compare_loop less a first1 b first2 (last1 - first1) (last2 - first2)
  else .error .undefined

/-- Loop of a traversal `for (it = first; it != last; ++it)` that collects `*it`. -/
def read_loop (a : ArrayPtr α) (first : Nat) : Nat → Except Failure (List α)
  | 0 => .ok []
  | n + 1 => do
    let x ← a.read first
    let rest ← read_loop a (first + 1) n
    pure (x :: rest)

end Algorithms

/-- The tag object `ReserveProxyObj`: a requested capacity and nothing else. -/
structure ReserveProxyObj where
  capacity_to_reserve_ : Nat
deriving DecidableEq, Repr

/-- The free function `Reserve(capacity_to_reserve)` that builds the tag object. -/
def Reserve (capacity_to_reserve : Nat) : ReserveProxyObj := ⟨capacity_to_reserve⟩

/-- The members of `SimpleVector<Type>`; the member initialisers are those of lines 338-340. -/
structure SimpleVector (α : Type) where
  array_vector_ : ArrayPtr α := ArrayPtr.null
  size_ : Nat := 0
  capacity_ : Nat := 0
deriving DecidableEq, Repr

namespace SimpleVector

variable {α : Type}

/-- `GetSize()`. -/
def GetSize (v : SimpleVector α) : Nat := v.size_

/-- `GetCapacity()`. -/
def GetCapacity (v : SimpleVector α) : Nat := v.capacity_

/-- `IsEmpty()`. -/
def IsEmpty (v : SimpleVector α) : Bool := v.size_ == 0

/-- Offset of `begin()` / `cbegin()` in the buffer. -/
def begin (_v : SimpleVector α) : Nat := 0

/-- Offset of `end()` / `cend()` in the buffer: `array_vector_.Get() + size_`. -/
def «end» (v : SimpleVector α) : Nat := v.size_

/-- The live elements: the slots `[0, size_)` that are inside the allocation (not a function of
the source; the vocabulary in which the properties speak about contents). -/
def elements (v : SimpleVector α) : List α := v.array_vector_.slots.take v.size_

/-- The number of slots really allocated (what the design calls capacity). -/
def allocated (v : SimpleVector α) : Nat := v.array_vector_.slots.length

/-- The default constructor (line 26). -/
def ctor_default : SimpleVector α := {}

/-- `Reserve(new_capacity)` (lines 160-169). -/
def Reserve (junk : Nat → α) (v : SimpleVector α) (new_capacity : Nat) :
    Except Failure (SimpleVector α) :=
  if new_capacity > v.capacity_ then do
    let temp := ArrayPtr.create junk new_capacity
    let temp1 ← std_copy v.array_vector_ v.begin v.end temp 0
    let (mine, _) := ArrayPtr.swap v.array_vector_ temp1
    pure { array_vector_ := mine, size_ := v.size_, capacity_ := new_capacity }
  else
    pure v

/-- Does `Reserve(new_capacity)` replace the buffer? It does exactly under the guard of line 162;
the replaced buffer is released when `temp` goes out of scope (line 168), so every pointer into
it dangles from then on. -/
def Reserve_replaces_buffer (v : SimpleVector α) (new_capacity : Nat) : Bool :=
  decide (new_capacity > v.capacity_)

/-- `explicit SimpleVector(size_t size)` (lines 29-35). -/
def ctor_size [Inhabited α] (junk : Nat → α) (size : Nat) : Except Failure (SimpleVector α) := do
  let v : SimpleVector α :=
    { array_vector_ := ArrayPtr.create junk size, size_ := size, capacity_ := size }
  let a ← std_fill v.array_vector_ v.begin v.end default
  pure { v with array_vector_ := a }

/-- Loop of lines 43-46: `array_vector_[i] = value` for `i` from `i` upwards, `n` times. -/
def ctor_value_loop (a : ArrayPtr α) (i : Nat) (value : α) : Nat → Except Failure (ArrayPtr α)
  | 0 => .ok a
  | n + 1 => do
    let a1 ← a.write i value
    ctor_value_loop a1 (i + 1) value n

/-- `SimpleVector(size_t size, const Type& value)` (lines 38-47). -/
def ctor_size_value (junk : Nat → α) (size : Nat) (value : α) :
    Except Failure (SimpleVector α) := do
  let a ← ctor_value_loop (ArrayPtr.create junk size) 0 value size
  pure { array_vector_ := a, size_ := size, capacity_ := size }

/-- `SimpleVector(std::initializer_list<Type> init)` (lines 50-56). -/
def ctor_init (junk : Nat → α) (init : List α) : Except Failure (SimpleVector α) := do
  let v : SimpleVector α :=
    { array_vector_ := ArrayPtr.create junk init.length,
      size_ := init.length, capacity_ := init.length }
  let a ← std_copy ⟨init⟩ 0 init.length v.array_vector_ v.begin
  pure { v with array_vector_ := a }

/-- `SimpleVector(ReserveProxyObj other)` (lines 58-61). -/
def ctor_reserve (junk : Nat → α) (other : ReserveProxyObj) : Except Failure (SimpleVector α) :=
  Reserve junk {} other.capacity_to_reserve_

/-- Member `swap(other)` (lines 289-294); the result is (this, other) after the call. -/
def swap (v other : SimpleVector α) : SimpleVector α × SimpleVector α :=
  let (a, b) := ArrayPtr.swap v.array_vector_ other.array_vector_
  ({ array_vector_ := a, size_ := other.size_, capacity_ := other.capacity_ },
   { array_vector_ := b, size_ := v.size_, capacity_ := v.capacity_ })

/-- `Clear()` (lines 155-158). -/
def Clear (v : SimpleVector α) : SimpleVector α := { v with size_ := 0 }

/-- `PopBack()` (lines 274-280). -/
def PopBack (v : SimpleVector α) : SimpleVector α :=
  if !v.IsEmpty then { v with size_ := v.size_ - 1 } else v

/-- `PushBack(const Type& item)` (lines 193-213). The local `new_capacity` of line 199 is read
without ever being given a value; `new_capacity` stands for whatever value that read yields. -/
def PushBack_copy (junk : Nat → α) (new_capacity : Nat) (v : SimpleVector α) (item : α) :
    Except Failure (SimpleVector α) := do
  if v.IsEmpty then
    let v1 ← if v.capacity_ = 0 then Reserve junk v new_capacity else pure v
    let a ← v1.array_vector_.write 0 item
    pure { v1 with array_vector_ := a, size_ := 1 }
  else
    let v1 ← if v.size_ = v.capacity_ then Reserve junk v (v.capacity_ * 2) else pure v
    let a ← v1.array_vector_.write v1.size_ item
    pure { v1 with array_vector_ := a, size_ := v1.size_ + 1 }

/-- `PushBack(Type&& item)` (lines 215-234). -/
def PushBack_move (junk : Nat → α) (v : SimpleVector α) (item : α) :
    Except Failure (SimpleVector α) := do
  if v.IsEmpty then
    let v1 ← if v.capacity_ = 0 then Reserve junk v 10 else pure v
    let a ← v1.array_vector_.write 0 item
    pure { v1 with array_vector_ := a, size_ := 1 }
  else
    let v1 ← if v.size_ = v.capacity_ then Reserve junk v (v.capacity_ * 2) else pure v
    let a ← v1.array_vector_.write v1.size_ item
    pure { v1 with array_vector_ := a, size_ := v1.size_ + 1 }

/-- `Insert(ConstIterator pos, const Type& value)` (lines 236-253). `pos` is the offset of the
iterator from `begin()` when the call is made; the result is the vector and the offset of the
returned iterator from the `begin()` of that vector. When `Reserve` replaces the buffer, `pos`
still points into the released one, and lines 249-252 go on using it. -/
def Insert_copy (junk : Nat → α) (new_capacity : Nat) (v : SimpleVector α) (pos : Nat)
    (value : α) : Except Failure (SimpleVector α × Nat) := do
  if ¬ (v.begin ≤ pos ∧ pos ≤ v.end) then throw Failure.assertion
  if pos = v.end then
    let v1 ← PushBack_copy junk new_capacity v value
    pure (v1, v1.end - 1)
  else
    let full := decide (v.size_ = v.capacity_)
    let v1 ← if full then Reserve junk v (v.capacity_ * 2) else pure v
    if full && Reserve_replaces_buffer v (v.capacity_ * 2) then throw Failure.undefined
    let a ← std_move_backward v1.array_vector_ pos v1.end (v1.end + 1)
    let a1 ← a.write pos value
    pure ({ v1 with array_vector_ := a1, size_ := v1.size_ + 1 }, pos)

/-- `Insert(ConstIterator pos, Type&& value)` (lines 255-272); conventions as for `Insert_copy`. -/
def Insert_move (junk : Nat → α) (v : SimpleVector α) (pos : Nat) (value : α) :
    Except Failure (SimpleVector α × Nat) := do
  if ¬ (v.begin ≤ pos ∧ pos ≤ v.end) then throw Failure.assertion
  if pos = v.end then
    let v1 ← PushBack_move junk v value
    pure (v1, v1.end - 1)
  else
    let full := decide (v.size_ = v.capacity_)
    let v1 ← if full then Reserve junk v (v.capacity_ * 2) else pure v
    if full && Reserve_replaces_buffer v (v.capacity_ * 2) then throw Failure.undefined
    let a ← std_move_backward v1.array_vector_ pos v1.end (v1.end + 1)
    let a1 ← a.write pos value
    pure ({ v1 with array_vector_ := a1, size_ := v1.size_ + 1 }, pos)

/-- `Erase(ConstIterator pos)` (lines 282-287); `pos` and the returned iterator are offsets from
`begin()`. -/
def Erase (v : SimpleVector α) (pos : Nat) : Except Failure (SimpleVector α × Nat) := do
  let a ← std_move v.array_vector_ (pos + 1) v.end pos
  pure ({ v with array_vector_ := a, size_ := v.size_ - 1 }, pos)

/-- `operator[](size_t index)` (lines 121-130), mutable and const: the slot, no check. -/
def subscript (v : SimpleVector α) (index : Nat) : Except Failure α :=
  v.array_vector_.read index

/-- `Type& At(size_t index)` (lines 134-141). The result is what the call yields (the element
the returned reference denotes, or the exception thrown) together with the vector as the call
leaves it. -/
def At (v : SimpleVector α) (index : Nat) : Except Failure α × SimpleVector α :=
  if index ≥ v.size_ then
    (throw (Failure.out_of_range "out of range"), v)
  else
    (v.array_vector_.read index, v)

/-- `const Type& At(size_t index) const` (lines 145-152). -/
def At_const (v : SimpleVector α) (index : Nat) : Except Failure α :=
  if index ≥ v.size_ then
    throw (Failure.out_of_range "out of range")
  else
    v.array_vector_.read index

/-- `operator==` (lines 354-358); `&&` evaluates `std::equal` only when the sizes agree. -/
def operator_eq [BEq α] (lhs rhs : SimpleVector α) : Except Failure Bool :=
  if lhs.GetSize == rhs.GetSize then
    std_equal lhs.array_vector_ lhs.begin lhs.end rhs.array_vector_ rhs.begin
  else
    pure false

/-- The copy constructor (lines 63-68). -/
def ctor_copy [Inhabited α] (junk : Nat → α) (other : SimpleVector α) :
    Except Failure (SimpleVector α) := do
  let temp ← ctor_size junk other.size_
  let a ← std_copy other.array_vector_ other.begin other.end temp.array_vector_ temp.begin
  let (this, _) := swap {} { temp with array_vector_ := a }
  pure this

/-- The move constructor (lines 70-75); the result is (the new vector, `other` afterwards). -/
def ctor_move (other : SimpleVector α) : SimpleVector α × SimpleVector α :=
  let (a, b) := ArrayPtr.move other.array_vector_
  ({ array_vector_ := a, size_ := other.size_, capacity_ := other.capacity_ },
   { array_vector_ := b, size_ := 0, capacity_ := 0 })

/-- Copy assignment (lines 77-87) to a vector other than `rhs` itself; the result is `*this`
after the call (`rhs` is const). -/
def assign_copy [BEq α] [Inhabited α] (junk : Nat → α) (v rhs : SimpleVector α) :
    Except Failure (SimpleVector α) := do
  if (← operator_eq v rhs) then
    pure v
  else
    let temp ← ctor_copy junk rhs
    let (this, _) := swap v temp
    pure this

/-- Move assignment (lines 89-100) from a vector other than `*this`; the result is (`*this`,
`rhs`) after the call. `std::move` of a `size_t` member copies it and leaves it as it was. -/
def assign_move [BEq α] (v rhs : SimpleVector α) :
    Except Failure (SimpleVector α × SimpleVector α) := do
  if (← operator_eq v rhs) then
    pure (v, rhs)
  else
    let (a, b) := ArrayPtr.swap v.array_vector_ rhs.array_vector_
    pure ({ array_vector_ := a, size_ := rhs.size_, capacity_ := rhs.size_ },
          { rhs with array_vector_ := b })

/-- Traversal from `begin()` to `end()`, collecting the elements visited. -/
def iterate (v : SimpleVector α) : Except Failure (List α) :=
  read_loop v.array_vector_ v.begin (v.end - v.begin)

/-- `operator!=` (lines 360-364). -/
def operator_ne [BEq α] (lhs rhs : SimpleVector α) : Except Failure Bool := do
  let r ← operator_eq lhs rhs
  pure (!r)

/-- `operator<` (lines 366-370); `less` is the `operator<` of the element type. -/
def operator_lt (less : α → α → Bool) (lhs rhs : SimpleVector α) : Except Failure Bool :=
  std_lexicographical_compare less lhs.array_vector_ lhs.begin lhs.end
    rhs.array_vector_ rhs.begin rhs.end

/-- `operator<=` (lines 372-376); `||` evaluates `lhs == rhs` only when `lhs < rhs` is false. -/
def operator_le [BEq α] (less : α → α → Bool) (lhs rhs : SimpleVector α) :
    Except Failure Bool := do
  if (← operator_lt less lhs rhs) then pure true else operator_eq lhs rhs

/-- `operator>` (lines 378-382). -/
def operator_gt (less : α → α → Bool) (lhs rhs : SimpleVector α) : Except Failure Bool :=
  operator_lt less rhs lhs

/-- `operator>=` (lines 384-388). -/
def operator_ge (less : α → α → Bool) (lhs rhs : SimpleVector α) : Except Failure Bool := do
  let r ← operator_lt less lhs rhs
  pure (!r)

/-- A caller that calls `PushBack(Type&&)` once for every value of a list, in order. -/
def PushBack_move_all (junk : Nat → α) (v : SimpleVector α) :
    List α → Except Failure (SimpleVector α)
  | [] => pure v
  | x :: xs => do
    let v1 ← PushBack_move junk v x
    PushBack_move_all junk v1 xs

/-- The same caller, which also counts the calls after which `GetCapacity()` differs from its
value before the call: the calls in which `Reserve` replaced the buffer. The result is the final
vector and that count. -/
def PushBack_move_all_counting (junk : Nat → α) (v : SimpleVector α) :
    List α → Except Failure (SimpleVector α × Nat)
  | [] => pure (v, 0)
  | x :: xs => do
    let v1 ← PushBack_move junk v x
    let (w, k) ← PushBack_move_all_counting junk v1 xs
    pure (w, if v1.GetCapacity ≠ v.GetCapacity then k + 1 else k)

/-- The same caller, counting the calls that replaced the buffer as seen on the buffer itself:
the calls after which the number of slots really allocated differs from what it was before the
call (a buffer never changes its slot count, so a different count is a different buffer, and
`Reserve` only ever replaces a buffer by a larger one). The result is the final vector and that
count. -/
def PushBack_move_all_replacing (junk : Nat → α) (v : SimpleVector α) :
    List α → Except Failure (SimpleVector α × Nat)
  | [] => pure (v, 0)
  | x :: xs => do
    let v1 ← PushBack_move junk v x
    let (w, k) ← PushBack_move_all_replacing junk v1 xs
    pure (w, if v1.allocated ≠ v.allocated then k + 1 else k)

/-- The lexicographic "less" of two lists under `less`, by recursion on the lists: the relation
the properties of `operator<` are stated against (not a function of the source). -/
def lexLess (less : α → α → Bool) : List α → List α → Bool
  | x :: xs, y :: ys => if less x y then true else if less y x then false else lexLess less xs ys
  | [], _ :: _ => true
  | _, [] => false

end SimpleVector

/-! ## The loops, in closed form -/

section LoopLemmas
variable {α : Type}

/-- A read inside the allocation yields the slot. -/
theorem ArrayPtr.read_ok (a : ArrayPtr α) (i : Nat) (h : i < a.slots.length) :
    a.read i = .ok (a.slots[i]) := by
  simp [ArrayPtr.read, List.getElem?_eq_getElem h]

/-- A write inside the allocation updates the slot. -/
theorem ArrayPtr.write_ok (a : ArrayPtr α) (i : Nat) (x : α) (h : i < a.slots.length) :
    a.write i x = .ok ⟨a.slots.set i x⟩ := by
  simp [ArrayPtr.write, h]

/-- Taking one slot past an assigned slot: the slots before it, then the assigned value. -/
theorem take_succ_set_self : ∀ (l : List α) (d : Nat) (x : α), d < l.length →
    (l.set d x).take (d + 1) = l.take d ++ [x]
  | [], _, _, h => by simp at h
  | _ :: _, 0, _, _ => by simp
  | _ :: l, d + 1, x, h => by
    simp only [List.set_cons_succ, List.take_succ_cons, List.cons_append]
    rw [take_succ_set_self l d x (by simpa using h)]

/-- Slots below an assigned slot are not affected by the assignment. -/
theorem take_set_of_le : ∀ (l : List α) (n m : Nat) (x : α), n ≤ m →
    (l.set m x).take n = l.take n
  | [], _, _, _, _ => by simp
  | _ :: _, 0, _, _, _ => by simp
  | _ :: l, n + 1, 0, _, h => by omega
  | _ :: l, n + 1, m + 1, x, h => by
    simp only [List.set_cons_succ, List.take_succ_cons]
    rw [take_set_of_le l n m x (by omega)]

/-- Dropping up to an assigned slot: the assigned value, then the slots after it. -/
theorem drop_set_self : ∀ (l : List α) (d : Nat) (x : α), d < l.length →
    (l.set d x).drop d = x :: l.drop (d + 1)
  | [], _, _, h => by simp at h
  | _ :: _, 0, _, _ => by simp
  | _ :: l, d + 1, x, h => by
    simp only [List.set_cons_succ, List.drop_succ_cons]
    rw [drop_set_self l d x (by simpa using h)]

/-- One more slot of a window of the buffer. -/
theorem take_succ_drop (l : List α) (f n : Nat) (h : f + n < l.length) :
    (l.drop f).take (n + 1) = (l.drop f).take n ++ [l[f + n]] := by
  rw [List.take_succ, List.getElem?_drop, List.getElem?_eq_getElem h]
  rfl

/-- Copying `n` slots between buffers, inside both allocations: the destination gets the source
window in place of its own. -/
theorem copy_loop_ok (src : ArrayPtr α) : ∀ (n first : Nat) (dst : ArrayPtr α) (d : Nat),
    first + n ≤ src.slots.length → d + n ≤ dst.slots.length →
    copy_loop src first dst d n
      = .ok ⟨dst.slots.take d ++ (src.slots.drop first).take n ++ dst.slots.drop (d + n)⟩ := by
  intro n
  induction n with
  | zero => intro first dst d _ _; simp [copy_loop]
  | succ n ih =>
    intro first dst d h1 h2
    have hr : first < src.slots.length := by omega
    have hw : d < dst.slots.length := by omega
    simp only [copy_loop, ArrayPtr.read_ok src first hr, ArrayPtr.write_ok dst d _ hw]
    simp only [bind, Except.bind]
    rw [ih (first + 1) _ (d + 1) (by omega) (by simp; omega)]
    congr 2
    rw [take_succ_set_self _ _ _ hw, List.drop_set_of_lt _ _ (by omega),
      List.drop_eq_getElem_cons hr, List.take_succ_cons]
    simp [Nat.add_assoc, Nat.add_comm 1 n]

/-- Moving `n` slots one position down inside a buffer, lowest index first. -/
theorem move_loop_ok : ∀ (n : Nat) (a : ArrayPtr α) (d : Nat),
    d + 1 + n ≤ a.slots.length →
    move_loop a (d + 1) d n
      = .ok ⟨a.slots.take d ++ (a.slots.drop (d + 1)).take n ++ a.slots.drop (d + n)⟩ := by
  intro n
  induction n with
  | zero => intro a d _; simp [move_loop]
  | succ n ih =>
    intro a d h
    have hr : d + 1 < a.slots.length := by omega
    have hw : d < a.slots.length := by omega
    simp only [move_loop, ArrayPtr.read_ok a _ hr, ArrayPtr.write_ok a d _ hw]
    simp only [bind, Except.bind]
    rw [ih _ (d + 1) (by simp; omega)]
    congr 2
    rw [take_succ_set_self _ _ _ hw, List.drop_set_of_lt _ _ (by omega),
      List.drop_set_of_lt _ _ (by omega),
      List.drop_eq_getElem_cons hr, List.take_succ_cons]
    simp [Nat.add_assoc, Nat.add_comm 1 n]

/-- Moving `n` slots one position up inside a buffer, highest index first. -/
theorem move_backward_loop_ok : ∀ (n : Nat) (a : ArrayPtr α) (f : Nat),
    f + n + 1 ≤ a.slots.length →
    move_backward_loop a f (f + 1) n
      = .ok ⟨a.slots.take (f + 1) ++ (a.slots.drop f).take n ++ a.slots.drop (f + 1 + n)⟩ := by
  intro n
  induction n with
  | zero => intro a f _; simp [move_backward_loop]
  | succ n ih =>
    intro a f h
    have hr : f + n < a.slots.length := by omega
    have hw : f + 1 + n < a.slots.length := by omega
    simp only [move_backward_loop, ArrayPtr.read_ok a _ hr, ArrayPtr.write_ok a _ _ hw]
    simp only [bind, Except.bind]
    rw [ih _ f (by simp; omega)]
    congr 2
    rw [take_set_of_le _ _ _ _ (by omega), drop_set_self _ _ _ hw, take_succ_drop _ _ _ hr]
    have e : (a.slots.set (f + 1 + n) a.slots[f + n]).drop f
        = (a.slots.drop f).set (n + 1) a.slots[f + n] := by
      rw [List.drop_set, if_neg (by omega)]
      congr 1
      omega
    rw [e, take_set_of_le _ _ _ _ (by omega)]
    simp only [List.append_assoc, List.singleton_append]
    congr 4

/-- Assigning one value to `n` consecutive slots. -/
theorem fill_loop_ok (x : α) : ∀ (n : Nat) (a : ArrayPtr α) (f : Nat),
    f + n ≤ a.slots.length →
    fill_loop a f x n
      = .ok ⟨a.slots.take f ++ List.replicate n x ++ a.slots.drop (f + n)⟩ := by
  intro n
  induction n with
  | zero => intro a f _; simp [fill_loop]
  | succ n ih =>
    intro a f h
    have hw : f < a.slots.length := by omega
    simp only [fill_loop, ArrayPtr.write_ok a _ _ hw]
    simp only [bind, Except.bind]
    rw [ih _ (f + 1) (by simp; omega)]
    congr 2
    rw [take_succ_set_self _ _ _ hw, List.drop_set_of_lt _ _ (by omega)]
    simp [Nat.add_assoc, Nat.add_comm 1 n, List.replicate_succ]

/-- Traversing `n` slots yields them in index order. -/
theorem read_loop_ok : ∀ (n : Nat) (a : ArrayPtr α) (f : Nat),
    f + n ≤ a.slots.length →
    read_loop a f n = .ok ((a.slots.drop f).take n) := by
  intro n
  induction n with
  | zero => intro a f _; simp [read_loop]
  | succ n ih =>
    intro a f h
    have hr : f < a.slots.length := by omega
    simp only [read_loop, ArrayPtr.read_ok a _ hr]
    simp only [bind, Except.bind]
    rw [ih _ (f + 1) (by omega)]
    simp only [pure, Except.pure]
    rw [List.drop_eq_getElem_cons hr, List.take_succ_cons]

end LoopLemmas

/-! ## Reserve and PushBack on well-formed vectors -/

namespace SimpleVector
variable {α : Type}

/-- The live elements are as many as the size says when the live range is inside the buffer. -/
theorem length_elements (v : SimpleVector α) (h : v.size_ ≤ v.allocated) :
    v.elements.length = v.size_ := by
  simp only [elements, allocated] at *
  simp [h]

/-- A fresh buffer has exactly the requested number of slots. -/
theorem length_create (junk : Nat → α) (n : Nat) : (ArrayPtr.create junk n).slots.length = n := by
  simp [ArrayPtr.create]

/-- What `Reserve` computes on a vector whose live range is inside its buffer. -/
theorem Reserve_ok (junk : Nat → α) (v : SimpleVector α) (new_capacity : Nat)
    (hsc : v.size_ ≤ v.capacity_) (hsa : v.size_ ≤ v.allocated) :
    Reserve junk v new_capacity = .ok
      (if new_capacity > v.capacity_ then
        { array_vector_ :=
            ⟨v.array_vector_.slots.take v.size_
              ++ (ArrayPtr.create junk new_capacity).slots.drop v.size_⟩,
          size_ := v.size_, capacity_ := new_capacity }
      else v) := by
  unfold Reserve
  split
  · rename_i h
    simp only [std_copy, begin, «end», Nat.zero_le, if_true, Nat.sub_zero]
    rw [copy_loop_ok _ _ _ _ _ (by simpa [allocated] using hsa)
      (by rw [length_create]; omega)]
    simp [bind, Except.bind, pure, Except.pure, ArrayPtr.swap]
  · rfl

/-- The facts about `Reserve` that its callers rely on. -/
theorem Reserve_facts (junk : Nat → α) (v : SimpleVector α) (new_capacity : Nat)
    (hsc : v.size_ ≤ v.capacity_) (hca : v.capacity_ ≤ v.allocated) :
    ∃ v1, Reserve junk v new_capacity = .ok v1 ∧ v1.size_ = v.size_ ∧
      v1.capacity_ = max v.capacity_ new_capacity ∧ v1.elements = v.elements ∧
      v1.capacity_ ≤ v1.allocated ∧ (new_capacity ≤ v.capacity_ → v1 = v) := by
  have hsa : v.size_ ≤ v.allocated := by omega
  refine ⟨_, Reserve_ok junk v new_capacity hsc hsa, ?_⟩
  by_cases h : new_capacity > v.capacity_
  · rw [if_pos h]
    refine ⟨rfl, by show new_capacity = _; omega, ?_, ?_, by omega⟩
    · simp only [elements, allocated] at *
      rw [List.take_append_eq_append_take]
      simp [hsa]
    · show new_capacity ≤ _
      simp only [allocated, List.length_append, List.length_take, List.length_drop, length_create]
      simp only [allocated] at hsa
      omega
  · rw [if_neg h]
    exact ⟨rfl, by omega, rfl, hca, fun _ => rfl⟩

/-- The transfer overload is the copy overload with 10 as the value of `new_capacity`. -/
theorem PushBack_move_eq_copy (junk : Nat → α) (v : SimpleVector α) (item : α) :
    PushBack_move junk v item = PushBack_copy junk 10 v item := rfl

/-- Assigning the slot just past the live range and counting it in appends one element. -/
theorem write_end_ok (v1 : SimpleVector α) (item : α) (h : v1.size_ < v1.allocated) :
    ∃ a, v1.array_vector_.write v1.size_ item = .ok a ∧ a.slots.length = v1.allocated ∧
      a.slots.take (v1.size_ + 1) = v1.elements ++ [item] := by
  refine ⟨_, ArrayPtr.write_ok _ _ _ h, by simp [allocated], ?_⟩
  exact take_succ_set_self _ _ _ h

/-- What `PushBack` computes, for either overload, when the capacity it reserves from zero is
positive. -/
theorem PushBack_copy_facts (junk : Nat → α) (n : Nat) (v : SimpleVector α) (item : α)
    (hn : 0 < n) (hsc : v.size_ ≤ v.capacity_) (hca : v.capacity_ ≤ v.allocated) :
    ∃ v', PushBack_copy junk n v item = .ok v' ∧ v'.size_ = v.size_ + 1 ∧
      v'.elements = v.elements ++ [item] ∧ v'.size_ ≤ v'.capacity_ ∧
      v'.capacity_ ≤ v'.allocated ∧
      v'.capacity_ = (if v.capacity_ = 0 then n
        else if v.size_ = v.capacity_ then v.capacity_ * 2 else v.capacity_) := by
  unfold PushBack_copy
  by_cases hempty : v.size_ = 0
  · have hE : v.IsEmpty = true := by simp [IsEmpty, hempty]
    simp only [hE, if_true]
    by_cases hc : v.capacity_ = 0
    · obtain ⟨v1, e1, s1, c1, el1, a1, -⟩ := Reserve_facts junk v n hsc hca
      have hlt : v1.size_ < v1.allocated := by omega
      obtain ⟨a, ea, la, ta⟩ := write_end_ok v1 item hlt
      rw [s1, hempty] at ea ta
      simp only [hc, if_true, e1, bind, Except.bind, ea, pure, Except.pure]
      refine ⟨_, rfl, by simp [hempty], ?_, ?_, ?_, ?_⟩
      · show a.slots.take 1 = v.elements ++ [item]
        rw [← el1]
        simpa using ta
      · show 1 ≤ v1.capacity_
        omega
      · show v1.capacity_ ≤ a.slots.length
        omega
      · show v1.capacity_ = n
        omega
    · have hlt : v.size_ < v.allocated := by omega
      obtain ⟨a, ea, la, ta⟩ := write_end_ok v item hlt
      rw [hempty] at ea ta
      simp only [hc, if_false, bind, Except.bind, ea, pure, Except.pure]
      refine ⟨_, rfl, by simp [hempty], ?_, ?_, ?_, ?_⟩
      · simpa [elements] using ta
      · show 1 ≤ v.capacity_
        omega
      · show v.capacity_ ≤ a.slots.length
        omega
      · show v.capacity_ = _
        rw [if_neg (by omega)]
  · have hE : v.IsEmpty = false := by simp [IsEmpty, hempty]
    simp only [hE, Bool.false_eq_true, if_false]
    by_cases hf : v.size_ = v.capacity_
    · obtain ⟨v1, e1, s1, c1, el1, a1, -⟩ := Reserve_facts junk v (v.capacity_ * 2) hsc hca
      have hlt : v1.size_ < v1.allocated := by omega
      obtain ⟨a, ea, la, ta⟩ := write_end_ok v1 item hlt
      simp only [hf, if_true, e1, bind, Except.bind, ea, pure, Except.pure] at *
      refine ⟨_, rfl, by simp [s1], ?_, ?_, ?_, ?_⟩
      · show a.slots.take (v1.size_ + 1) = v.elements ++ [item]
        rw [← el1]
        exact ta
      · show v1.size_ + 1 ≤ v1.capacity_
        omega
      · show v1.capacity_ ≤ a.slots.length
        omega
      · show v1.capacity_ = _
        rw [if_neg (by omega)]
        omega
    · have hlt : v.size_ < v.allocated := by omega
      obtain ⟨a, ea, la, ta⟩ := write_end_ok v item hlt
      simp only [hf, if_false, bind, Except.bind, ea, pure, Except.pure]
      refine ⟨_, rfl, rfl, ?_, ?_, ?_, ?_⟩
      · simpa [elements] using ta
      · show v.size_ + 1 ≤ v.capacity_
        omega
      · show v.capacity_ ≤ a.slots.length
        omega
      · show v.capacity_ = _
        rw [if_neg (by omega)]

/-- Unchecked access below the size reads the live element of that index. -/
theorem subscript_of_lt (v : SimpleVector α) (i : Nat) (h : i < v.size_) :
    v.subscript i = (match v.elements[i]? with
      | some x => .ok x
      | none => .error .undefined) := by
  simp only [subscript, ArrayPtr.read, elements, List.getElem?_take_of_lt h]

/-- Pushing a list of values one by one appends the list. -/
theorem PushBack_move_all_facts (junk : Nat → α) : ∀ (xs : List α) (v : SimpleVector α),
    v.size_ ≤ v.capacity_ → v.capacity_ ≤ v.allocated →
    ∃ w, PushBack_move_all junk v xs = .ok w ∧ w.size_ = v.size_ + xs.length ∧
      w.elements = v.elements ++ xs ∧ w.size_ ≤ w.capacity_ ∧ w.capacity_ ≤ w.allocated
  | [], v, hsc, hca => ⟨v, rfl, by simp, by simp, hsc, hca⟩
  | x :: xs, v, hsc, hca => by
    obtain ⟨v1, e1, s1, el1, hsc1, hca1, -⟩ :=
      PushBack_copy_facts junk 10 v x (by decide) hsc hca
    obtain ⟨w, e, s, el, h1, h2⟩ := PushBack_move_all_facts junk xs v1 hsc1 hca1
    refine ⟨w, ?_, ?_, ?_, h1, h2⟩
    · simp only [PushBack_move_all, PushBack_move_eq_copy, e1, bind, Except.bind]
      exact e
    · rw [s, s1, List.length_cons]; omega
    · rw [el, el1]; simp

/-- The copy overload on a default-constructed vector, `new_capacity` reading 0: the assignment
to slot 0 is outside every allocation. -/
theorem PushBack_copy_default_zero (junk : Nat → α) (item : α) :
    PushBack_copy junk 0 (ctor_default : SimpleVector α) item = .error .undefined := rfl
/-- The transfer overload of `Insert` is the copy overload with 10 as `new_capacity`. -/
theorem Insert_move_eq_copy (junk : Nat → α) (v : SimpleVector α) (pos : Nat) (value : α) :
    Insert_move junk v pos value = Insert_copy junk 10 v pos value := rfl

/-- Shifting the tail of the live range one slot up and assigning the freed slot, in closed
form on the live elements. -/
theorem shift_up_write_ok (a : ArrayPtr α) (pos size : Nat) (value : α)
    (hpos : pos < size) (hlen : size + 1 ≤ a.slots.length) :
    ∃ a1 a2, std_move_backward a pos size (size + 1) = .ok a1 ∧ a1.write pos value = .ok a2 ∧
      a2.slots.length = a.slots.length ∧
      a2.slots.take (size + 1)
        = (a.slots.take size).take pos ++ value :: (a.slots.take size).drop pos := by
  have e1 : size + 1 - (size - pos) = pos + 1 := by omega
  have hl1 : (a.slots.take (pos + 1)).length = pos + 1 := by simp; omega
  refine ⟨⟨a.slots.take (pos + 1) ++ (a.slots.drop pos).take (size - pos)
        ++ a.slots.drop (pos + 1 + (size - pos))⟩, _, ?_, ArrayPtr.write_ok _ _ _ ?_, ?_, ?_⟩
  · simp only [std_move_backward]
    rw [if_pos ⟨by omega, by omega⟩, e1]
    exact move_backward_loop_ok _ a pos (by omega)
  · simp; omega
  · simp; omega
  · show ((a.slots.take (pos + 1) ++ (a.slots.drop pos).take (size - pos)
        ++ a.slots.drop (pos + 1 + (size - pos))).set pos value).take (size + 1) = _
    rw [List.append_assoc, List.set_append_left _ _ (by omega), ← List.set_take,
      take_succ_set_self _ _ _ (by omega), ← List.append_assoc, List.take_left' (by simp; omega),
      List.take_take, List.drop_take, Nat.min_eq_left (by omega)]
    simp

/-- What `Insert` computes, for either overload, where it does not have to replace the buffer in
the middle of the live range: at `end()`, or with a free slot left. -/
theorem Insert_copy_facts (junk : Nat → α) (n : Nat) (v : SimpleVector α) (pos : Nat)
    (value : α) (hn : 0 < n) (hsc : v.size_ ≤ v.capacity_) (hca : v.capacity_ ≤ v.allocated)
    (hpos : pos ≤ v.size_) (hroom : pos = v.size_ ∨ v.size_ < v.capacity_) :
    ∃ v', Insert_copy junk n v pos value = .ok (v', pos) ∧ v'.size_ = v.size_ + 1 ∧
      v'.elements = v.elements.take pos ++ value :: v.elements.drop pos ∧
      v'.size_ ≤ v'.capacity_ ∧ v'.capacity_ ≤ v'.allocated := by
  have hlen : v.elements.length = v.size_ := length_elements v (by omega)
  unfold Insert_copy
  have hassert : v.begin ≤ pos ∧ pos ≤ v.size_ := ⟨Nat.zero_le _, hpos⟩
  by_cases hend : pos = v.size_
  · subst hend
    obtain ⟨v', e, s, el, h1, h2, -⟩ := PushBack_copy_facts junk n v value hn hsc hca
    refine ⟨v', ?_, s, ?_, h1, h2⟩
    · simp only [«end», hassert, and_self, not_true_eq_false, if_false, if_true, e, bind,
        Except.bind, pure, Except.pure, s, Nat.add_sub_cancel]
    · rw [el, ← hlen]; simp
  · have hlt : pos < v.size_ := by omega
    have hfree : v.size_ < v.capacity_ := by omega
    have hfull : decide (v.size_ = v.capacity_) = false := by simp; omega
    obtain ⟨a1, a2, e1, e2, l2, t2⟩ :=
      shift_up_write_ok v.array_vector_ pos v.size_ value hlt (by simp only [allocated] at hca; omega)
    refine ⟨{ v with array_vector_ := a2, size_ := v.size_ + 1 }, ?_, rfl, t2, ?_, ?_⟩
    · simp only [«end», hassert, and_self, not_true_eq_false, if_false, hend, hfull,
        Bool.false_and, Bool.false_eq_true, bind, Except.bind, pure, Except.pure, e1, e2]
    · show v.size_ + 1 ≤ v.capacity_
      omega
    · show v.capacity_ ≤ a2.slots.length
      rw [l2]; exact hca

/-- Either overload of `Insert`, at an interior position of a full vector: `Reserve` replaces
the buffer and the position, still pointing into the released one, is used afterwards. -/
theorem Insert_copy_full_interior (junk : Nat → α) (n : Nat) (v : SimpleVector α) (pos : Nat)
    (value : α) (hsc : v.size_ ≤ v.capacity_) (hca : v.capacity_ ≤ v.allocated)
    (hpos : pos < v.size_) (hfull : v.size_ = v.capacity_) :
    Insert_copy junk n v pos value = .error .undefined := by
  obtain ⟨v1, e1, -⟩ := Reserve_facts junk v (v.capacity_ * 2) hsc hca
  have hassert : v.begin ≤ pos ∧ pos ≤ v.size_ := ⟨Nat.zero_le _, by omega⟩
  have hend : ¬ pos = v.size_ := by omega
  have hfulld : decide (v.size_ = v.capacity_) = true := by simp [hfull]
  have hrep : Reserve_replaces_buffer v (v.capacity_ * 2) = true := by
    simp [Reserve_replaces_buffer]; omega
  unfold Insert_copy
  simp only [«end», hassert, and_self, not_true_eq_false, if_false, hend, hfulld, if_true, e1,
    hrep, Bool.and_self, bind, Except.bind, throw, throwThe, MonadExceptOf.throw, pure,
    Except.pure]
/-- Shifting the tail of the live range one slot down, in closed form on the live elements. -/
theorem shift_down_ok (a : ArrayPtr α) (pos size : Nat)
    (hpos : pos < size) (hlen : size ≤ a.slots.length) :
    ∃ a1, std_move a (pos + 1) size pos = .ok a1 ∧ a1.slots.length = a.slots.length ∧
      a1.slots.take (size - 1)
        = (a.slots.take size).take pos ++ (a.slots.take size).drop (pos + 1) := by
  refine ⟨⟨a.slots.take pos ++ (a.slots.drop (pos + 1)).take (size - (pos + 1))
        ++ a.slots.drop (pos + (size - (pos + 1)))⟩, ?_, ?_, ?_⟩
  · simp only [std_move]
    rw [if_pos (by omega)]
    exact move_loop_ok _ a pos (by omega)
  · simp; omega
  · show (a.slots.take pos ++ (a.slots.drop (pos + 1)).take (size - (pos + 1))
        ++ a.slots.drop (pos + (size - (pos + 1)))).take (size - 1) = _
    rw [List.take_left' (by simp; omega), List.take_take, List.drop_take,
      Nat.min_eq_left (by omega)]

/-- What `Erase` computes at the position of a live element. -/
theorem Erase_facts (v : SimpleVector α) (pos : Nat) (hpos : pos < v.size_)
    (hsa : v.size_ ≤ v.allocated) :
    ∃ v', Erase v pos = .ok (v', pos) ∧ v'.size_ = v.size_ - 1 ∧
      v'.elements = v.elements.take pos ++ v.elements.drop (pos + 1) ∧
      v'.capacity_ = v.capacity_ ∧ v'.allocated = v.allocated := by
  obtain ⟨a1, e1, l1, t1⟩ := shift_down_ok v.array_vector_ pos v.size_ hpos hsa
  refine ⟨{ v with array_vector_ := a1, size_ := v.size_ - 1 }, ?_, rfl, t1, rfl, l1⟩
  simp only [Erase, «end», e1, bind, Except.bind, pure, Except.pure]

/-- What the initializer-list constructor builds. -/
theorem ctor_init_ok (junk : Nat → α) (init : List α) :
    ctor_init junk init
      = .ok { array_vector_ := ⟨init⟩, size_ := init.length, capacity_ := init.length } := by
  simp only [ctor_init, std_copy, begin, Nat.zero_le, if_true, Nat.sub_zero]
  rw [copy_loop_ok _ _ _ _ _ (by simp) (by rw [length_create]; omega)]
  simp only [bind, Except.bind, pure, Except.pure, List.take_zero, List.nil_append, List.drop_zero,
    List.take_length, Nat.zero_add]
  rw [List.drop_of_length_le (by rw [length_create]), List.append_nil]
/-- What the size constructor builds: `size` slots, all holding `Type()`. -/
theorem ctor_size_ok [Inhabited α] (junk : Nat → α) (size : Nat) :
    ctor_size junk size
      = .ok { array_vector_ := ⟨List.replicate size default⟩, size_ := size, capacity_ := size } := by
  simp only [ctor_size, std_fill, begin, «end», Nat.zero_le, if_true, Nat.sub_zero]
  rw [fill_loop_ok _ _ _ _ (by rw [length_create]; omega)]
  simp only [bind, Except.bind, pure, Except.pure, List.take_zero, List.nil_append, Nat.zero_add]
  rw [List.drop_of_length_le (by rw [length_create]), List.append_nil]

/-- What the copy constructor builds from a source whose live range lies inside its buffer: a
buffer of exactly the source's size holding the source's live elements. -/
theorem ctor_copy_ok [Inhabited α] (junk : Nat → α) (other : SimpleVector α)
    (h : other.size_ ≤ other.allocated) :
    ctor_copy junk other
      = .ok { array_vector_ := ⟨other.elements⟩, size_ := other.size_,
              capacity_ := other.size_ } := by
  simp only [ctor_copy, ctor_size_ok, bind, Except.bind, std_copy, begin, «end», Nat.zero_le,
    if_true, Nat.sub_zero]
  rw [copy_loop_ok _ _ _ _ _ (by simpa [allocated] using h) (by simp)]
  simp only [pure, Except.pure, swap, ArrayPtr.swap, List.take_zero, List.nil_append,
    List.drop_zero, Nat.zero_add]
  rw [List.drop_of_length_le (by simp), List.append_nil]
  rfl
/-- Lists of different lengths are not equal under the elementwise `==`. -/
theorem list_beq_eq_false_of_length_ne [BEq α] : ∀ (l1 l2 : List α),
    l1.length ≠ l2.length → (l1 == l2) = false
  | [], [], h => by simp at h
  | [], _ :: _, _ => rfl
  | _ :: _, [], _ => rfl
  | x :: xs, y :: ys, h => by
    have ih := list_beq_eq_false_of_length_ne xs ys (by simpa using h)
    show (x == y && (xs == ys)) = false
    rw [ih, Bool.and_false]

/-- The elementwise `==` of two lists, index by index. -/
theorem list_beq_iff [BEq α] : ∀ (l1 l2 : List α),
    (l1 == l2) = true ↔ l1.length = l2.length ∧
      ∀ i, i < l1.length → ∃ x y, l1[i]? = some x ∧ l2[i]? = some y ∧ (x == y) = true
  | [], [] => by simp
  | [], _ :: _ => by
    constructor
    · intro h; cases h
    · intro h; simp at h
  | _ :: _, [] => by
    constructor
    · intro h; cases h
    · intro h; simp at h
  | x :: xs, y :: ys => by
    have ih := list_beq_iff xs ys
    show (x == y && (xs == ys)) = true ↔ _
    rw [Bool.and_eq_true, ih]
    constructor
    · rintro ⟨hxy, hl, hall⟩
      refine ⟨by simp [hl], ?_⟩
      intro i hi
      cases i with
      | zero => exact ⟨x, y, by simp, by simp, hxy⟩
      | succ i => simpa using hall i (by simpa using hi)
    · rintro ⟨hl, hall⟩
      refine ⟨?_, by simpa using hl, ?_⟩
      · obtain ⟨x', y', hx, hy, hxy⟩ := hall 0 (by simp)
        simp only [List.getElem?_cons_zero, Option.some.injEq] at hx hy
        rw [hx, hy]; exact hxy
      · intro i hi
        simpa using hall (i + 1) (by simpa using hi)

/-- The loop of `std::equal` over two windows inside the allocations computes the elementwise
`==` of the windows. -/
theorem equal_loop_ok [BEq α] (a b : ArrayPtr α) : ∀ (n f1 f2 : Nat),
    f1 + n ≤ a.slots.length → f2 + n ≤ b.slots.length →
    equal_loop a f1 b f2 n = .ok ((a.slots.drop f1).take n == (b.slots.drop f2).take n) := by
  intro n
  induction n with
  | zero => intro f1 f2 _ _; rfl
  | succ n ih =>
    intro f1 f2 h1 h2
    have hr1 : f1 < a.slots.length := by omega
    have hr2 : f2 < b.slots.length := by omega
    simp only [equal_loop, ArrayPtr.read_ok a _ hr1, ArrayPtr.read_ok b _ hr2, bind, Except.bind]
    rw [ih (f1 + 1) (f2 + 1) (by omega) (by omega), List.drop_eq_getElem_cons hr1,
      List.drop_eq_getElem_cons hr2, List.take_succ_cons, List.take_succ_cons]
    show _ = Except.ok (a.slots[f1] == b.slots[f2] && _)
    cases a.slots[f1] == b.slots[f2] <;> rfl

/-- What `operator==` computes on two vectors whose live ranges lie inside their buffers: the
elementwise `==` of the live elements. -/
theorem operator_eq_ok [BEq α] (a b : SimpleVector α) (ha : a.size_ ≤ a.allocated)
    (hb : b.size_ ≤ b.allocated) :
    operator_eq a b = .ok (a.elements == b.elements) := by
  have la := length_elements a ha
  have lb := length_elements b hb
  unfold operator_eq
  by_cases hs : a.size_ = b.size_
  · simp only [GetSize, hs, beq_self_eq_true, if_true, std_equal, begin, «end», Nat.zero_le,
      Nat.sub_zero]
    rw [← hs, equal_loop_ok a.array_vector_ b.array_vector_ a.size_ 0 0
      (by simpa [allocated] using ha) (by rw [hs]; simpa [allocated] using hb)]
    simp only [List.drop_zero, elements, hs]
  · have hne : (a.GetSize == b.GetSize) = false := by simpa [GetSize] using hs
    rw [hne, list_beq_eq_false_of_length_ne _ _ (by rw [la, lb]; exact hs)]
    rfl

/-- Unchecked access below the size, in terms of the live elements. -/
theorem subscript_eq_ok_iff (v : SimpleVector α) (i : Nat) (x : α) (h : i < v.size_) :
    v.subscript i = .ok x ↔ v.elements[i]? = some x := by
  rw [subscript_of_lt v i h]
  cases v.elements[i]? <;> simp

/-- A vector with the same size and live elements as one whose live range lies inside its
buffer has its live range inside its buffer, too. -/
theorem allocated_of_same_elements (a a' : SimpleVector α) (ha : a.size_ ≤ a.allocated)
    (hs : a'.size_ = a.size_) (he : a'.elements = a.elements) : a'.size_ ≤ a'.allocated := by
  have h := congrArg List.length he
  rw [length_elements a ha] at h
  simp only [elements, List.length_take, allocated] at *
  omega
/-- The elementwise `==` of a list with itself, for a reflexive `==`. -/
theorem list_beq_self [BEq α] (hrefl : ∀ x : α, (x == x) = true) : ∀ (l : List α),
    (l == l) = true
  | [] => rfl
  | x :: xs => by
    show (x == x && (xs == xs)) = true
    rw [hrefl x, list_beq_self hrefl xs]
    rfl

/-- Lists that are elementwise `==` are equal, when `==` holds only between equal values. -/
theorem list_eq_of_beq [BEq α] (hlaw : ∀ x y : α, (x == y) = true → x = y) :
    ∀ (l1 l2 : List α), (l1 == l2) = true → l1 = l2
  | [], [], _ => rfl
  | [], _ :: _, h => by cases h
  | _ :: _, [], h => by cases h
  | x :: xs, y :: ys, h => by
    have h' : (x == y && (xs == ys)) = true := h
    rw [Bool.and_eq_true] at h'
    rw [hlaw x y h'.1, list_eq_of_beq hlaw xs ys h'.2]

/-- What copy assignment computes on vectors whose live ranges lie inside their buffers. -/
theorem assign_copy_ok [BEq α] [Inhabited α] (junk : Nat → α) (v rhs : SimpleVector α)
    (hv : v.size_ ≤ v.allocated) (hr : rhs.size_ ≤ rhs.allocated) :
    assign_copy junk v rhs = .ok (if (v.elements == rhs.elements) = true then v
      else { array_vector_ := ⟨rhs.elements⟩, size_ := rhs.size_, capacity_ := rhs.size_ }) := by
  simp only [assign_copy, operator_eq_ok v rhs hv hr, bind, Except.bind, ctor_copy_ok junk rhs hr]
  cases v.elements == rhs.elements <;> rfl
/-- The loop of `std::lexicographical_compare` over two windows inside the allocations computes
the lexicographic "less" of the windows. -/
theorem lexicographical_compare_loop_ok (less : α → α → Bool) (a b : ArrayPtr α) :
    ∀ (n1 n2 f1 f2 : Nat), f1 + n1 ≤ a.slots.length → f2 + n2 ≤ b.slots.length →
    lexicographical_compare_loop less a f1 b f2 n1 n2
      = .ok (lexLess less ((a.slots.drop f1).take n1) ((b.slots.drop f2).take n2)) := by
  intro n1
  induction n1 with
  | zero =>
    intro n2 f1 f2 _ h2
    cases n2 with
    | zero => rfl
    | succ n2 =>
      have hr2 : f2 < b.slots.length := by omega
      rw [List.drop_eq_getElem_cons hr2]
      rfl
  | succ n1 ih =>
    intro n2 f1 f2 h1 h2
    have hr1 : f1 < a.slots.length := by omega
    cases n2 with
    | zero =>
      rw [List.drop_eq_getElem_cons hr1]
      rfl
    | succ n2 =>
      have hr2 : f2 < b.slots.length := by omega
      simp only [lexicographical_compare_loop, ArrayPtr.read_ok a _ hr1,
        ArrayPtr.read_ok b _ hr2, bind, Except.bind]
      rw [ih n2 (f1 + 1) (f2 + 1) (by omega) (by omega), List.drop_eq_getElem_cons hr1,
        List.drop_eq_getElem_cons hr2, List.take_succ_cons, List.take_succ_cons]
      simp only [lexLess]
      cases less a.slots[f1] b.slots[f2] <;> cases less b.slots[f2] a.slots[f1] <;> rfl

/-- What `operator<` computes on two vectors whose live ranges lie inside their buffers: the
lexicographic "less" of the live elements. -/
theorem operator_lt_ok (less : α → α → Bool) (a b : SimpleVector α)
    (ha : a.size_ ≤ a.allocated) (hb : b.size_ ≤ b.allocated) :
    operator_lt less a b = .ok (lexLess less a.elements b.elements) := by
  simp only [operator_lt, std_lexicographical_compare, begin, «end», Nat.zero_le, and_self,
    if_true, Nat.sub_zero]
  rw [lexicographical_compare_loop_ok less _ _ _ _ 0 0 (by simpa [allocated] using ha)
    (by simpa [allocated] using hb)]
  simp only [List.drop_zero, elements]

/-- The lexicographic "less" of two lists, index by index, when `==` on the elements is the
equivalence induced by `less` (neither value is less than the other). -/
theorem lexLess_iff [BEq α] (less : α → α → Bool)
    (heq : ∀ x y : α, (x == y) = true ↔ (less x y = false ∧ less y x = false)) :
    ∀ (l1 l2 : List α), lexLess less l1 l2 = true ↔
      (∃ i, i < min l1.length l2.length ∧
        (∀ j, j < i → ∃ x y, l1[j]? = some x ∧ l2[j]? = some y ∧ (x == y) = true) ∧
        ∃ x y, l1[i]? = some x ∧ l2[i]? = some y ∧ less x y = true) ∨
      (l1.length < l2.length ∧
        ∀ j, j < l1.length → ∃ x y, l1[j]? = some x ∧ l2[j]? = some y ∧ (x == y) = true)
  | [], [] => by simp [lexLess]
  | [], _ :: _ => by simp [lexLess]
  | _ :: _, [] => by simp [lexLess]
  | x :: xs, y :: ys => by
    have ih := lexLess_iff less heq xs ys
    simp only [lexLess]
    by_cases hxy : less x y = true
    · rw [if_pos hxy]
      refine iff_of_true rfl (Or.inl ⟨0, by simp, fun j hj => absurd hj (Nat.not_lt_zero j), ?_⟩)
      exact ⟨x, y, by simp, by simp, hxy⟩
    · rw [if_neg hxy]
      have hxy' : less x y = false := by simpa using hxy
      by_cases hyx : less y x = true
      · rw [if_pos hyx]
        have hne : ¬ (x == y) = true := fun h => by
          have := ((heq x y).1 h).2
          rw [hyx] at this
          cases this
        constructor
        · intro h; cases h
        · rintro (⟨i, hi, hpre, x', y', hx, hy, hl⟩ | ⟨-, hall⟩)
          · cases i with
            | zero =>
              simp only [List.getElem?_cons_zero, Option.some.injEq] at hx hy
              rw [← hx, ← hy, hxy'] at hl
              cases hl
            | succ i =>
              obtain ⟨x', y', hx, hy, he⟩ := hpre 0 (Nat.succ_pos i)
              simp only [List.getElem?_cons_zero, Option.some.injEq] at hx hy
              rw [← hx, ← hy] at he
              exact absurd he hne
          · obtain ⟨x', y', hx, hy, he⟩ := hall 0 (by simp)
            simp only [List.getElem?_cons_zero, Option.some.injEq] at hx hy
            rw [← hx, ← hy] at he
            exact absurd he hne
      · rw [if_neg hyx]
        have hyx' : less y x = false := by simpa using hyx
        have hbeq : (x == y) = true := (heq x y).2 ⟨hxy', hyx'⟩
        rw [ih]
        constructor
        · rintro (⟨i, hi, hpre, hlt⟩ | ⟨hlen, hall⟩)
          · refine Or.inl ⟨i + 1, by simp only [List.length_cons]; omega, ?_, by simpa using hlt⟩
            intro j hj
            cases j with
            | zero => exact ⟨x, y, by simp, by simp, hbeq⟩
            | succ j => simpa using hpre j (by omega)
          · refine Or.inr ⟨by simp only [List.length_cons]; omega, ?_⟩
            intro j hj
            cases j with
            | zero => exact ⟨x, y, by simp, by simp, hbeq⟩
            | succ j => simpa using hall j (by simpa using hj)
        · rintro (⟨i, hi, hpre, x', y', hx, hy, hl⟩ | ⟨hlen, hall⟩)
          · cases i with
            | zero =>
              simp only [List.getElem?_cons_zero, Option.some.injEq] at hx hy
              rw [← hx, ← hy, hxy'] at hl
              cases hl
            | succ i =>
              refine Or.inl ⟨i, by simp only [List.length_cons] at hi; omega, ?_,
                ⟨x', y', by simpa using hx, by simpa using hy, hl⟩⟩
              intro j hj
              simpa using hpre (j + 1) (by omega)
          · refine Or.inr ⟨by simpa using hlen, ?_⟩
            intro j hj
            simpa using hall (j + 1) (by simpa using hj)
/-- A pair of live elements at one index, read through `operator[]` or from the live elements. -/
theorem pair_at_iff (a b : SimpleVector α) (j : Nat) (P : α → α → Prop) (ha : j < a.size_)
    (hb : j < b.size_) :
    (∃ x y, a.elements[j]? = some x ∧ b.elements[j]? = some y ∧ P x y) ↔
      ∃ x y, a.subscript j = .ok x ∧ b.subscript j = .ok y ∧ P x y := by
  constructor
  · rintro ⟨x, y, hx, hy, hp⟩
    exact ⟨x, y, (subscript_eq_ok_iff a j x ha).2 hx, (subscript_eq_ok_iff b j y hb).2 hy, hp⟩
  · rintro ⟨x, y, hx, hy, hp⟩
    exact ⟨x, y, (subscript_eq_ok_iff a j x ha).1 hx, (subscript_eq_ok_iff b j y hb).1 hy, hp⟩

/-- Under a strict total order `less` on the elements, with `==` holding exactly between equal
values, exactly one of "less", "equal", "greater" holds between two lists. -/
theorem lexLess_trichotomy [BEq α] (less : α → α → Bool)
    (hlaw : ∀ x y : α, (x == y) = true ↔ x = y) (hirr : ∀ x : α, less x x = false)
    (htrans : ∀ x y z : α, less x y = true → less y z = true → less x z = true)
    (htot : ∀ x y : α, x ≠ y → less x y = true ∨ less y x = true) :
    ∀ (l1 l2 : List α),
      (lexLess less l1 l2 = true ∧ (l1 == l2) = false ∧ lexLess less l2 l1 = false) ∨
      (lexLess less l1 l2 = false ∧ (l1 == l2) = true ∧ lexLess less l2 l1 = false) ∨
      (lexLess less l1 l2 = false ∧ (l1 == l2) = false ∧ lexLess less l2 l1 = true)
  | [], [] => Or.inr (Or.inl ⟨rfl, rfl, rfl⟩)
  | [], _ :: _ => Or.inl ⟨rfl, rfl, rfl⟩
  | _ :: _, [] => Or.inr (Or.inr ⟨rfl, rfl, rfl⟩)
  | x :: xs, y :: ys => by
    have ih := lexLess_trichotomy less hlaw hirr htrans htot xs ys
    have hasym : ∀ u v : α, less u v = true → less v u = false := by
      intro u v h
      cases hvu : less v u with
      | false => rfl
      | true =>
        have := htrans u v u h hvu
        rw [hirr u] at this
        cases this
    have hE : ((x :: xs) == (y :: ys)) = (x == y && (xs == ys)) := rfl
    by_cases hxy : x = y
    · subst hxy
      have hb : (x == x) = true := (hlaw x x).2 rfl
      simp only [lexLess, hirr x, Bool.false_eq_true, if_false, hE, hb, Bool.true_and]
      exact ih
    · have hb : (x == y) = false := by
        cases h : x == y with
        | false => rfl
        | true => exact absurd ((hlaw x y).1 h) hxy
      rcases htot x y hxy with h | h
      · have h' := hasym x y h
        refine Or.inl ⟨?_, ?_, ?_⟩
        · simp [lexLess, h]
        · rw [hE, hb]; rfl
        · simp [lexLess, h, h']
      · have h' := hasym y x h
        refine Or.inr (Or.inr ⟨?_, ?_, ?_⟩)
        · simp [lexLess, h, h']
        · rw [hE, hb]; rfl
        · simp [lexLess, h]

/-- With `==` holding exactly between equal values, the elementwise `==` of lists does not
depend on the order of its arguments. -/
theorem list_beq_comm [BEq α] (hlaw : ∀ x y : α, (x == y) = true ↔ x = y) (l1 l2 : List α) :
    (l2 == l1) = (l1 == l2) := by
  have hrefl : ∀ x : α, (x == x) = true := fun x => (hlaw x x).2 rfl
  have hinj : ∀ x y : α, (x == y) = true → x = y := fun x y => (hlaw x y).1
  cases h1 : l1 == l2 with
  | true =>
    rw [list_eq_of_beq hinj l1 l2 h1]
    exact list_beq_self hrefl l2
  | false =>
    cases h2 : l2 == l1 with
    | false => rfl
    | true =>
      rw [list_eq_of_beq hinj l2 l1 h2, list_beq_self hrefl l1] at h1
      cases h1
/-- The growth of the capacity along a run of `PushBack(Type&&)` calls. Starting from a vector
whose capacity is `10 * 2 ^ k` with `k` least for its size, the run ends with a capacity
`10 * 2 ^ k'` with `k'` least for the final size, after exactly `k' - k` calls that changed the
capacity. -/
theorem PushBack_move_all_counting_facts (junk : Nat → α) :
    ∀ (xs : List α) (v : SimpleVector α) (k : Nat),
    v.size_ ≤ v.capacity_ → v.capacity_ ≤ v.allocated → v.capacity_ = 10 * 2 ^ k →
    (∀ j, j < k → 10 * 2 ^ j < v.size_) →
    ∃ w k', PushBack_move_all_counting junk v xs = .ok (w, k' - k) ∧
      PushBack_move_all junk v xs = .ok w ∧ k ≤ k' ∧ w.size_ = v.size_ + xs.length ∧
      w.capacity_ = 10 * 2 ^ k' ∧ (∀ j, j < k' → 10 * 2 ^ j < w.size_)
  | [], v, k, _, _, hc, hl => ⟨v, k, by simp [PushBack_move_all_counting, pure, Except.pure],
      rfl, Nat.le_refl _, by simp, hc, hl⟩
  | x :: xs, v, k, hsc, hca, hc, hl => by
    obtain ⟨v1, e1, s1, -, hsc1, hca1, c1⟩ :=
      PushBack_copy_facts junk 10 v x (by decide) hsc hca
    have hpos : 0 < 2 ^ k := Nat.pow_pos (by decide)
    have hcap0 : v.capacity_ ≠ 0 := by omega
    rw [if_neg hcap0] at c1
    by_cases hfull : v.size_ = v.capacity_
    · rw [if_pos hfull] at c1
      have hc1 : v1.capacity_ = 10 * 2 ^ (k + 1) := by rw [c1, hc, Nat.pow_succ]; omega
      have hl1 : ∀ j, j < k + 1 → 10 * 2 ^ j < v1.size_ := by
        intro j hj
        have : 2 ^ j ≤ 2 ^ k := Nat.pow_le_pow_right (by decide) (by omega)
        omega
      obtain ⟨w, k', ec, ea, hk, sw, cw, lw⟩ :=
        PushBack_move_all_counting_facts junk xs v1 (k + 1) hsc1 hca1 hc1 hl1
      refine ⟨w, k', ?_, ?_, by omega, by rw [sw, s1, List.length_cons]; omega, cw, lw⟩
      · have hne : v1.GetCapacity ≠ v.GetCapacity := by
          simp only [GetCapacity]; omega
        simp only [PushBack_move_all_counting, PushBack_move_eq_copy, e1, bind, Except.bind, ec,
          pure, Except.pure, hne, ne_eq, not_false_eq_true, if_true]
        congr 2
        omega
      · simp only [PushBack_move_all, PushBack_move_eq_copy, e1, bind, Except.bind]
        exact ea
    · rw [if_neg hfull] at c1
      have hl1 : ∀ j, j < k → 10 * 2 ^ j < v1.size_ := by
        intro j hj
        have := hl j hj
        omega
      obtain ⟨w, k', ec, ea, hk, sw, cw, lw⟩ :=
        PushBack_move_all_counting_facts junk xs v1 k hsc1 hca1 (by rw [c1, hc]) hl1
      refine ⟨w, k', ?_, ?_, hk, by rw [sw, s1, List.length_cons]; omega, cw, lw⟩
      · have heq : ¬ v1.GetCapacity ≠ v.GetCapacity := by
          simp only [GetCapacity, c1, ne_eq, not_not]
        simp only [PushBack_move_all_counting, PushBack_move_eq_copy, e1, bind, Except.bind, ec,
          pure, Except.pure, heq, if_false]
      · simp only [PushBack_move_all, PushBack_move_eq_copy, e1, bind, Except.bind]
        exact ea
/-- Either overload of `Insert` at an interior position of a vector with a free slot: the buffer
is kept, so the capacity is unchanged and the position stays valid. -/
theorem Insert_copy_free_slot (junk : Nat → α) (n : Nat) (v : SimpleVector α) (pos : Nat)
    (value : α) (hca : v.capacity_ ≤ v.allocated)
    (hpos : pos < v.size_) (hfree : v.size_ < v.capacity_) :
    ∃ v', Insert_copy junk n v pos value = .ok (v', pos) ∧ v'.size_ = v.size_ + 1 ∧
      v'.elements = v.elements.take pos ++ value :: v.elements.drop pos ∧
      v'.capacity_ = v.capacity_ ∧ v'.allocated = v.allocated := by
  have hassert : v.begin ≤ pos ∧ pos ≤ v.size_ := ⟨Nat.zero_le _, by omega⟩
  have hend : ¬ pos = v.size_ := by omega
  have hfull : decide (v.size_ = v.capacity_) = false := by simp; omega
  obtain ⟨a1, a2, e1, e2, l2, t2⟩ :=
    shift_up_write_ok v.array_vector_ pos v.size_ value hpos
      (by simp only [allocated] at hca; omega)
  refine ⟨{ v with array_vector_ := a2, size_ := v.size_ + 1 }, ?_, rfl, t2, rfl, l2⟩
  unfold Insert_copy
  simp only [«end», hassert, and_self, not_true_eq_false, if_false, hend, hfull,
    Bool.false_and, Bool.false_eq_true, bind, Except.bind, pure, Except.pure, e1, e2]

/-- Either overload of `Insert` at an interior position of a vector with a free slot, followed
by `Erase` at the returned iterator: size, elements and capacity are as before, and `Erase`
returns an iterator at the same index. -/
theorem Insert_then_Erase_free_slot (junk : Nat → α) (n : Nat) (v : SimpleVector α) (pos : Nat)
    (value : α) (hca : v.capacity_ ≤ v.allocated)
    (hpos : pos < v.size_) (hfree : v.size_ < v.capacity_) :
    ∃ v1 v2, Insert_copy junk n v pos value = .ok (v1, pos) ∧ Erase v1 pos = .ok (v2, pos) ∧
      v2.size_ = v.size_ ∧ v2.elements = v.elements ∧ v2.capacity_ = v.capacity_ := by
  have hlen : v.elements.length = v.size_ := length_elements v (by omega)
  obtain ⟨v1, e1, s1, el1, c1, a1⟩ := Insert_copy_free_slot junk n v pos value hca hpos hfree
  obtain ⟨v2, e2, s2, el2, c2, -⟩ := Erase_facts v1 pos (by omega) (by omega)
  refine ⟨v1, v2, e1, e2, by omega, ?_, by omega⟩
  have hl : (v.elements.take pos).length = pos := by rw [List.length_take, hlen]; omega
  rw [el2, el1, List.take_left' hl]
  have hd : (v.elements.take pos ++ value :: v.elements.drop pos).drop (pos + 1)
      = v.elements.drop pos := by
    rw [List.drop_append_eq_append_drop, hl, List.drop_of_length_le (by omega)]
    simp
  rw [hd, List.take_append_drop]
/-- The buffer `Reserve` leaves behind: when it grows, a buffer of exactly `new_capacity` slots
that holds the live elements followed by unspecified values; otherwise the buffer it found. -/
theorem Reserve_buffer (junk : Nat → α) (v : SimpleVector α) (new_capacity : Nat)
    (hsc : v.size_ ≤ v.capacity_) (hca : v.capacity_ ≤ v.allocated) :
    ∃ v1, Reserve junk v new_capacity = .ok v1 ∧
      (new_capacity > v.capacity_ → v1.allocated = new_capacity ∧
        v1.array_vector_.slots
          = v.elements ++ (ArrayPtr.create junk new_capacity).slots.drop v.size_) ∧
      (new_capacity ≤ v.capacity_ → v1.array_vector_ = v.array_vector_) := by
  have hsa : v.size_ ≤ v.allocated := by omega
  refine ⟨_, Reserve_ok junk v new_capacity hsc hsa, ?_, ?_⟩
  · intro h
    rw [if_pos h]
    refine ⟨?_, rfl⟩
    show (v.array_vector_.slots.take v.size_
      ++ (ArrayPtr.create junk new_capacity).slots.drop v.size_).length = new_capacity
    simp only [allocated] at hsa
    simp only [List.length_append, List.length_take, List.length_drop, length_create]
    omega
  · intro h
    rw [if_neg (by omega)]

/-- Either overload of `PushBack`, on a vector whose capacity is the number of slots really
allocated: the capacity of the result is again the number of slots really allocated. -/
theorem PushBack_copy_allocated (junk : Nat → α) (n : Nat) (v : SimpleVector α) (item : α)
    (hn : 0 < n) (hsc : v.size_ ≤ v.capacity_) (hcap : v.capacity_ = v.allocated) :
    ∃ v', PushBack_copy junk n v item = .ok v' ∧ v'.allocated = v'.capacity_ := by
  have hca : v.capacity_ ≤ v.allocated := by omega
  have hres : ∀ m, ∃ v1, Reserve junk v m = .ok v1 ∧ v1.size_ = v.size_ ∧
      v1.capacity_ = max v.capacity_ m ∧ v1.allocated = v1.capacity_ := by
    intro m
    obtain ⟨v1, e1, s1, c1, -, -, same⟩ := Reserve_facts junk v m hsc hca
    obtain ⟨v1', e1', grow, keep⟩ := Reserve_buffer junk v m hsc hca
    rw [e1] at e1'
    cases e1'
    refine ⟨v1, e1, s1, c1, ?_⟩
    by_cases h : m > v.capacity_
    · rw [(grow h).1, c1]; omega
    · rw [same (by omega)]; omega
  unfold PushBack_copy
  by_cases hempty : v.size_ = 0
  · have hE : v.IsEmpty = true := by simp [IsEmpty, hempty]
    simp only [hE, if_true]
    by_cases hc : v.capacity_ = 0
    · obtain ⟨v1, e1, s1, c1, a1⟩ := hres n
      have hlt : 0 < v1.array_vector_.slots.length := by
        simp only [allocated] at a1; omega
      simp only [hc, if_true, e1, bind, Except.bind, ArrayPtr.write_ok _ _ _ hlt, pure,
        Except.pure]
      refine ⟨_, rfl, ?_⟩
      show (v1.array_vector_.slots.set 0 item).length = v1.capacity_
      rw [List.length_set]; exact a1
    · have hlt : 0 < v.array_vector_.slots.length := by
        simp only [allocated] at hcap; omega
      simp only [hc, if_false, bind, Except.bind, ArrayPtr.write_ok _ _ _ hlt, pure, Except.pure]
      refine ⟨_, rfl, ?_⟩
      show (v.array_vector_.slots.set 0 item).length = v.capacity_
      rw [List.length_set]; exact hcap.symm
  · have hE : v.IsEmpty = false := by simp [IsEmpty, hempty]
    simp only [hE, Bool.false_eq_true, if_false]
    by_cases hf : v.size_ = v.capacity_
    · obtain ⟨v1, e1, s1, c1, a1⟩ := hres (v.capacity_ * 2)
      have hlt : v1.size_ < v1.array_vector_.slots.length := by
        simp only [allocated] at a1; omega
      simp only [hf, if_true, e1, bind, Except.bind, pure, Except.pure] at *
      rw [ArrayPtr.write_ok _ _ _ hlt]
      refine ⟨_, rfl, ?_⟩
      show (v1.array_vector_.slots.set v1.size_ item).length = v1.capacity_
      rw [List.length_set]; exact a1
    · have hlt : v.size_ < v.array_vector_.slots.length := by
        simp only [allocated] at hcap; omega
      simp only [hf, if_false, bind, Except.bind, ArrayPtr.write_ok _ _ _ hlt, pure, Except.pure]
      refine ⟨_, rfl, ?_⟩
      show (v.array_vector_.slots.set v.size_ item).length = v.capacity_
      rw [List.length_set]; exact hcap.symm

/-- Along a run of `PushBack(Type&&)` calls from a vector whose capacity is the number of slots
really allocated, that stays so, and the calls that change the allocation are the calls that
change the capacity. -/
theorem PushBack_move_all_replacing_facts (junk : Nat → α) :
    ∀ (xs : List α) (v : SimpleVector α),
    v.size_ ≤ v.capacity_ → v.capacity_ = v.allocated →
    ∃ w c, PushBack_move_all_replacing junk v xs = .ok (w, c) ∧
      PushBack_move_all_counting junk v xs = .ok (w, c) ∧ w.allocated = w.capacity_
  | [], v, _, hcap => ⟨v, 0, rfl, rfl, hcap.symm⟩
  | x :: xs, v, hsc, hcap => by
    obtain ⟨v1, e1, -, -, hsc1, -, -⟩ :=
      PushBack_copy_facts junk 10 v x (by decide) hsc (by omega)
    obtain ⟨v1', e1', a1⟩ := PushBack_copy_allocated junk 10 v x (by decide) hsc hcap
    rw [e1] at e1'
    cases e1'
    obtain ⟨w, c, er, ec, aw⟩ := PushBack_move_all_replacing_facts junk xs v1 hsc1 a1.symm
    refine ⟨w, if v1.allocated ≠ v.allocated then c + 1 else c, ?_, ?_, aw⟩
    · simp only [PushBack_move_all_replacing, PushBack_move_eq_copy, e1, bind, Except.bind, er,
        pure, Except.pure]
    · simp only [PushBack_move_all_counting, PushBack_move_eq_copy, e1, bind, Except.bind, ec,
        pure, Except.pure, GetCapacity, a1, hcap]

end SimpleVector

/-! ## Properties of the operations -/

namespace SimpleVector
variable {α : Type}

/-- C1 (the code at the failing input): on a default-constructed vector, when the read of the
uninitialised `new_capacity` in `PushBack(const Type&)` yields 0, `Reserve` leaves the vector
without a buffer and with capacity 0, the assignment to slot 0 falls outside every allocation, and
the call ends without a defined state; no state with size at most capacity comes out of it. -/
theorem PushBack_copy_on_default_reads_zero (junk : Nat → α) (item : α) :
    Reserve junk (ctor_default : SimpleVector α) 0 = .ok ctor_default ∧
    (ctor_default : SimpleVector α).capacity_ = 0 ∧
    (ctor_default : SimpleVector α).array_vector_.write 0 item = .error .undefined ∧
    PushBack_copy junk 0 ctor_default item = .error .undefined :=
  ⟨rfl, rfl, rfl, rfl⟩

/-- C2: on a vector with size at most capacity (and the capacity inside the buffer),
`PushBack(Type&&)` succeeds, the size grows by one, every element below the old size is
unchanged, the pushed value is at index old size, so the elements are the old ones followed by
the value; and pushing the values of a list in order onto a default-constructed vector gives a
vector whose size is the length of the list and whose elements are the list. -/
theorem PushBack_move_appends (junk : Nat → α) (v : SimpleVector α) (item : α) (xs : List α)
    (hsc : v.size_ ≤ v.capacity_) (hca : v.capacity_ ≤ v.allocated) :
    (∃ v', PushBack_move junk v item = .ok v' ∧ v'.size_ = v.size_ + 1 ∧
      (∀ i, i < v.size_ → v'.subscript i = v.subscript i) ∧
      v'.subscript v.size_ = .ok item ∧ v'.elements = v.elements ++ [item]) ∧
    (∃ w, PushBack_move_all junk ctor_default xs = .ok w ∧ w.size_ = xs.length ∧
      w.elements = xs) := by
  constructor
  · obtain ⟨v', e, s, el, -, -, -⟩ := PushBack_copy_facts junk 10 v item (by decide) hsc hca
    have hlen : v.elements.length = v.size_ := length_elements v (by omega)
    refine ⟨v', e, s, ?_, ?_, el⟩
    · intro i hi
      rw [subscript_of_lt v' i (by omega), subscript_of_lt v i hi, el,
        List.getElem?_append_left (by omega)]
    · rw [subscript_of_lt v' _ (by omega), el, List.getElem?_append_right (by omega)]
      simp [hlen]
  · obtain ⟨w, e, s, el, -, -⟩ :=
      PushBack_move_all_facts junk xs (ctor_default : SimpleVector α) (Nat.le_refl _)
        (Nat.zero_le _)
    refine ⟨w, e, ?_, ?_⟩
    · rw [s]; simp [ctor_default]
    · rw [el]; simp [ctor_default, elements]

/-- C2, at Scenario 1: pushing 1, 2, 3 onto a default-constructed vector. -/
theorem PushBack_move_appends_witness :
    (∃ v', PushBack_move (fun i => 100 + i) (ctor_default : SimpleVector Nat) 1 = .ok v' ∧
      v'.size_ = (ctor_default : SimpleVector Nat).size_ + 1 ∧
      (∀ i, i < (ctor_default : SimpleVector Nat).size_ →
        v'.subscript i = (ctor_default : SimpleVector Nat).subscript i) ∧
      v'.subscript (ctor_default : SimpleVector Nat).size_ = .ok 1 ∧
      v'.elements = (ctor_default : SimpleVector Nat).elements ++ [1]) ∧
    (∃ w, PushBack_move_all (fun i => 100 + i) (ctor_default : SimpleVector Nat) [1, 2, 3]
        = .ok w ∧ w.size_ = [1, 2, 3].length ∧ w.elements = [1, 2, 3]) :=
  PushBack_move_appends (fun i => 100 + i) ctor_default 1 [1, 2, 3] (by decide) (by decide)

/-- C3 (the code at the failing input): on a default-constructed vector the two overloads of
`PushBack` give the same result only if the uninitialised `new_capacity` of the copy overload
happens to read 10, the baseline the transfer overload reserves; for every other value the
capacities differ, or (value 0) the copy overload has no defined outcome at all. -/
theorem PushBack_copy_eq_move_on_default_iff (junk : Nat → α) (new_capacity : Nat) (item : α) :
    PushBack_copy junk new_capacity ctor_default item = PushBack_move junk ctor_default item
      ↔ new_capacity = 10 := by
  constructor
  · intro h
    obtain ⟨w, ew, -, -, -, -, cw⟩ := PushBack_copy_facts junk 10 (ctor_default : SimpleVector α)
      item (by decide) (Nat.le_refl _) (Nat.zero_le _)
    rw [PushBack_move_eq_copy, ew] at h
    by_cases hn : new_capacity = 0
    · subst hn
      rw [PushBack_copy_default_zero junk item] at h
      cases h
    · obtain ⟨w', ew', -, -, -, -, cw'⟩ := PushBack_copy_facts junk new_capacity
        (ctor_default : SimpleVector α) item (by omega) (Nat.le_refl _) (Nat.zero_le _)
      rw [ew'] at h
      cases h
      simp only [ctor_default] at cw cw'
      simp at cw cw'
      omega
  · intro h
    subst h
    rfl

/-- Where the capacity is not zero the two overloads of `PushBack` run the same steps. -/
theorem PushBack_copy_eq_move_of_capacity_ne_zero (junk : Nat → α) (new_capacity : Nat)
    (v : SimpleVector α) (item : α) (h : v.capacity_ ≠ 0) :
    PushBack_copy junk new_capacity v item = PushBack_move junk v item := by
  simp [PushBack_copy, PushBack_move, h]

end SimpleVector

namespace SimpleVector
variable {α : Type}

/-- C4 (the code at the failing input): Scenario 4 on the vector built from the list 1, 2, 3,
which is full (size 3, capacity 3). `Insert` at position 1 first calls `Reserve(6)`, which
replaces and releases the buffer the position points into, and then shifts and assigns through
that position: the call has no defined outcome, so it does not yield the elements 1, 9, 2, 3. -/
theorem Insert_move_full_interior_scenario4 (junk : Nat → Nat) :
    ctor_init junk [1, 2, 3] = .ok ⟨⟨[1, 2, 3]⟩, 3, 3⟩ ∧
    Reserve_replaces_buffer (⟨⟨[1, 2, 3]⟩, 3, 3⟩ : SimpleVector Nat) (3 * 2) = true ∧
    Insert_move junk ⟨⟨[1, 2, 3]⟩, 3, 3⟩ 1 9 = .error .undefined :=
  ⟨ctor_init_ok junk [1, 2, 3], rfl,
    Insert_copy_full_interior junk 10 ⟨⟨[1, 2, 3]⟩, 3, 3⟩ 1 9 (by decide) (by decide) (by decide)
      rfl⟩

/-- C5: for a vector whose live range lies inside its buffer and an index `pos` below the size,
`Erase` succeeds, the size drops by one, the elements are the old elements before `pos` followed
by the old elements after `pos`, the capacity is unchanged, and the returned iterator is at index
`pos`: it is `end()` when `pos` was the last index and denotes the element that followed the
erased one otherwise. -/
theorem Erase_spec (v : SimpleVector α) (pos : Nat) (hpos : pos < v.size_)
    (hsa : v.size_ ≤ v.allocated) :
    ∃ v', Erase v pos = .ok (v', pos) ∧ v'.size_ = v.size_ - 1 ∧
      v'.elements = v.elements.take pos ++ v.elements.drop (pos + 1) ∧
      v'.capacity_ = v.capacity_ ∧
      (pos + 1 = v.size_ → pos = v'.end) ∧
      (pos + 1 < v.size_ → v'.subscript pos = v.subscript (pos + 1)) := by
  obtain ⟨v', e, s, el, c, -⟩ := Erase_facts v pos hpos hsa
  have hlen : v.elements.length = v.size_ := length_elements v hsa
  refine ⟨v', e, s, el, c, ?_, ?_⟩
  · intro h
    show pos = v'.size_
    omega
  · intro h
    rw [subscript_of_lt v' pos (by omega), subscript_of_lt v (pos + 1) h, el,
      List.getElem?_append_right (by simp), List.getElem?_drop]
    simp [Nat.min_eq_left (Nat.le_of_lt (hlen ▸ hpos))]

/-- C5, at Scenario 5: erasing position 1 of 1, 9, 2, 3. -/
theorem Erase_spec_witness :
    ∃ v', Erase (⟨⟨[1, 9, 2, 3]⟩, 4, 4⟩ : SimpleVector Nat) 1 = .ok (v', 1) ∧
      v'.size_ = (⟨⟨[1, 9, 2, 3]⟩, 4, 4⟩ : SimpleVector Nat).size_ - 1 ∧
      v'.elements = (⟨⟨[1, 9, 2, 3]⟩, 4, 4⟩ : SimpleVector Nat).elements.take 1
        ++ (⟨⟨[1, 9, 2, 3]⟩, 4, 4⟩ : SimpleVector Nat).elements.drop (1 + 1) ∧
      v'.capacity_ = (⟨⟨[1, 9, 2, 3]⟩, 4, 4⟩ : SimpleVector Nat).capacity_ ∧
      (1 + 1 = (⟨⟨[1, 9, 2, 3]⟩, 4, 4⟩ : SimpleVector Nat).size_ → 1 = v'.end) ∧
      (1 + 1 < (⟨⟨[1, 9, 2, 3]⟩, 4, 4⟩ : SimpleVector Nat).size_ →
        v'.subscript 1 = (⟨⟨[1, 9, 2, 3]⟩, 4, 4⟩ : SimpleVector Nat).subscript (1 + 1)) :=
  Erase_spec ⟨⟨[1, 9, 2, 3]⟩, 4, 4⟩ 1 (by decide) (by decide)

/-- C6: for every vector and index, `At` (mutable and const) reports `std::out_of_range` exactly
when the index is not below the size; below the size it yields what `operator[]` yields, which
is the live element of that index when the live range lies inside the buffer; and whatever it
yields, it leaves the vector (size, capacity, elements) as it was. -/
theorem At_spec (v : SimpleVector α) (index : Nat) :
    ((At v index).1 = .error (.out_of_range "out of range") ↔ index ≥ v.size_) ∧
    (At_const v index = .error (.out_of_range "out of range") ↔ index ≥ v.size_) ∧
    (index < v.size_ → (At v index).1 = v.subscript index ∧ At_const v index = v.subscript index) ∧
    (index < v.size_ → v.size_ ≤ v.allocated →
      ∃ x, v.elements[index]? = some x ∧ (At v index).1 = .ok x ∧ At_const v index = .ok x) ∧
    (At v index).2 = v := by
  have hread : v.array_vector_.read index ≠ .error (.out_of_range "out of range") := by
    unfold ArrayPtr.read
    split <;> simp
  by_cases h : index ≥ v.size_
  · have h' : ¬ index < v.size_ := by omega
    simp [At, At_const, h, h', throw, throwThe, MonadExceptOf.throw]
  · have h' : index < v.size_ := by omega
    refine ⟨?_, ?_, ?_, ?_, ?_⟩
    · simp [At, h, hread]
    · simp [At_const, h, hread]
    · intro _
      simp [At, At_const, h, subscript]
    · intro _ hsa
      have hi : index < v.array_vector_.slots.length := by simp only [allocated] at hsa; omega
      refine ⟨v.array_vector_.slots[index], ?_, ?_, ?_⟩
      · simp [elements, List.getElem?_take_of_lt h', hi]
      · simp [At, h, ArrayPtr.read_ok _ _ hi]
      · simp [At_const, h, ArrayPtr.read_ok _ _ hi]
    · simp [At, h]

/-- C6, at Scenario 3 and at an index inside: `At(5)` and `At(1)` on a vector of size 3. -/
theorem At_spec_witness :
    (At (⟨⟨[1, 2, 3]⟩, 3, 3⟩ : SimpleVector Nat) 5).1 = .error (.out_of_range "out of range") ∧
    (∃ x, (⟨⟨[1, 2, 3]⟩, 3, 3⟩ : SimpleVector Nat).elements[1]? = some x ∧
      (At (⟨⟨[1, 2, 3]⟩, 3, 3⟩ : SimpleVector Nat) 1).1 = .ok x ∧
      At_const (⟨⟨[1, 2, 3]⟩, 3, 3⟩ : SimpleVector Nat) 1 = .ok x) :=
  ⟨(At_spec ⟨⟨[1, 2, 3]⟩, 3, 3⟩ 5).1.mpr (by decide),
   (At_spec ⟨⟨[1, 2, 3]⟩, 3, 3⟩ 1).2.2.2.1 (by decide) (by decide)⟩

end SimpleVector

namespace SimpleVector
variable {α : Type}

/-- C8: on a vector with size at most capacity (and the capacity inside the buffer),
`Reserve(new_capacity)` succeeds, the capacity becomes the larger of the old capacity and
`new_capacity`, the size and the live elements are unchanged and in the same order, and nothing
at all changes when `new_capacity` does not exceed the capacity. The capacity is real storage:
it stays inside the slots really allocated; when `new_capacity` exceeds the capacity the vector
owns a buffer of exactly `new_capacity` slots, holding the live elements followed by the
unspecified values of the fresh allocation; and where the old capacity was the number of slots
allocated, the number of slots allocated afterwards is the larger of it and `new_capacity`. -/
theorem Reserve_spec (junk : Nat → α) (v : SimpleVector α) (new_capacity : Nat)
    (hsc : v.size_ ≤ v.capacity_) (hca : v.capacity_ ≤ v.allocated) :
    ∃ v', Reserve junk v new_capacity = .ok v' ∧
      v'.capacity_ = max v.capacity_ new_capacity ∧ v'.size_ = v.size_ ∧
      v'.elements = v.elements ∧ (∀ i, i < v.size_ → v'.subscript i = v.subscript i) ∧
      (new_capacity ≤ v.capacity_ → v' = v) ∧
      v'.capacity_ ≤ v'.allocated ∧
      (new_capacity > v.capacity_ → v'.allocated = new_capacity ∧
        v'.array_vector_.slots
          = v.elements ++ (ArrayPtr.create junk new_capacity).slots.drop v.size_) ∧
      (v.capacity_ = v.allocated → v'.allocated = max v.allocated new_capacity ∧
        v'.allocated = v'.capacity_) := by
  obtain ⟨v', e, s, c, el, hca', same⟩ := Reserve_facts junk v new_capacity hsc hca
  obtain ⟨v'', e', grow, -⟩ := Reserve_buffer junk v new_capacity hsc hca
  rw [e] at e'
  cases e'
  refine ⟨v', e, c, s, el, ?_, same, hca', grow, ?_⟩
  · intro i hi
    rw [subscript_of_lt v' i (by omega), subscript_of_lt v i hi, el]
  · intro hcap
    by_cases h : new_capacity > v.capacity_
    · rw [(grow h).1, c]
      omega
    · rw [same (by omega)]
      omega

/-- C8, on the vector 1, 2, 3 with capacity 3: `Reserve(8)` gives a buffer of eight slots that
starts with 1, 2, 3; `Reserve(2)` does nothing. -/
theorem Reserve_spec_witness :
    (∃ v', Reserve (fun i => 100 + i) (⟨⟨[1, 2, 3]⟩, 3, 3⟩ : SimpleVector Nat) 8 = .ok v' ∧
      v'.capacity_ = max (⟨⟨[1, 2, 3]⟩, 3, 3⟩ : SimpleVector Nat).capacity_ 8 ∧
      v'.size_ = (⟨⟨[1, 2, 3]⟩, 3, 3⟩ : SimpleVector Nat).size_ ∧
      v'.elements = (⟨⟨[1, 2, 3]⟩, 3, 3⟩ : SimpleVector Nat).elements ∧
      (∀ i, i < (⟨⟨[1, 2, 3]⟩, 3, 3⟩ : SimpleVector Nat).size_ →
        v'.subscript i = (⟨⟨[1, 2, 3]⟩, 3, 3⟩ : SimpleVector Nat).subscript i) ∧
      (8 ≤ (⟨⟨[1, 2, 3]⟩, 3, 3⟩ : SimpleVector Nat).capacity_ →
        v' = (⟨⟨[1, 2, 3]⟩, 3, 3⟩ : SimpleVector Nat)) ∧
      v'.capacity_ ≤ v'.allocated ∧
      (8 > (⟨⟨[1, 2, 3]⟩, 3, 3⟩ : SimpleVector Nat).capacity_ → v'.allocated = 8 ∧
        v'.array_vector_.slots
          = (⟨⟨[1, 2, 3]⟩, 3, 3⟩ : SimpleVector Nat).elements
            ++ (ArrayPtr.create (fun i => 100 + i) 8).slots.drop
                (⟨⟨[1, 2, 3]⟩, 3, 3⟩ : SimpleVector Nat).size_) ∧
      ((⟨⟨[1, 2, 3]⟩, 3, 3⟩ : SimpleVector Nat).capacity_
          = (⟨⟨[1, 2, 3]⟩, 3, 3⟩ : SimpleVector Nat).allocated →
        v'.allocated = max (⟨⟨[1, 2, 3]⟩, 3, 3⟩ : SimpleVector Nat).allocated 8 ∧
        v'.allocated = v'.capacity_)) ∧
    Reserve (fun i => 100 + i) (⟨⟨[1, 2, 3]⟩, 3, 3⟩ : SimpleVector Nat) 8
      = .ok ⟨⟨[1, 2, 3, 103, 104, 105, 106, 107]⟩, 3, 8⟩ ∧
    Reserve (fun i => 100 + i) (⟨⟨[1, 2, 3]⟩, 3, 3⟩ : SimpleVector Nat) 2
      = .ok ⟨⟨[1, 2, 3]⟩, 3, 3⟩ :=
  ⟨Reserve_spec (fun i => 100 + i) ⟨⟨[1, 2, 3]⟩, 3, 3⟩ 8 (by decide) (by decide), by decide,
    by decide⟩

/-- C9: for every finite list, the vector constructed from it as initializer list exists, has
the length of the list as size and as capacity, and the traversal from `begin()` to `end()`
visits exactly the values of the list, in the order of the list. -/
theorem ctor_init_roundtrip (junk : Nat → α) (init : List α) :
    ∃ v, ctor_init junk init = .ok v ∧ v.size_ = init.length ∧ v.capacity_ = init.length ∧
      v.iterate = .ok init ∧ v.elements = init := by
  refine ⟨_, ctor_init_ok junk init, rfl, rfl, ?_, ?_⟩
  · simp only [iterate, «end», begin, Nat.sub_zero]
    rw [read_loop_ok _ _ _ (by simp)]
    simp
  · simp [elements]

/-- C10 (the code at the failing input): the source holds 1, 2 in a buffer of three slots (the
list-built vector 1, 2, 3 after `PopBack`), the destination is default-constructed. After the
move assignment the destination has the source's buffer and size 2 but capacity 2, not 3, and
the source keeps size 2 and capacity 3 while owning the destination's former buffer, which has
no slots. -/
theorem assign_move_from_popped (junk : Nat → Nat) :
    (ctor_init junk [1, 2, 3]).map PopBack = .ok ⟨⟨[1, 2, 3]⟩, 2, 3⟩ ∧
    assign_move (ctor_default : SimpleVector Nat) ⟨⟨[1, 2, 3]⟩, 2, 3⟩
      = .ok (⟨⟨[1, 2, 3]⟩, 2, 2⟩, ⟨⟨[]⟩, 2, 3⟩) ∧
    (ctor_move (⟨⟨[1, 2, 3]⟩, 2, 3⟩ : SimpleVector Nat))
      = (⟨⟨[1, 2, 3]⟩, 2, 3⟩, ⟨⟨[]⟩, 0, 0⟩) := by
  refine ⟨?_, by decide, by decide⟩
  rw [ctor_init_ok]
  decide

end SimpleVector

namespace SimpleVector
variable {α : Type}

/-- C11: for every source vector, the move constructor yields a vector with the source's buffer
(hence its elements), size and capacity, and leaves the source without buffer, with size 0 and
capacity 0. -/
theorem ctor_move_spec (other : SimpleVector α) :
    (ctor_move other).1.array_vector_ = other.array_vector_ ∧
    (ctor_move other).1.elements = other.elements ∧
    (ctor_move other).1.size_ = other.size_ ∧
    (ctor_move other).1.capacity_ = other.capacity_ ∧
    (ctor_move other).2.size_ = 0 ∧ (ctor_move other).2.capacity_ = 0 ∧
    (ctor_move other).2.elements = [] ∧ (ctor_move other).2.allocated = 0 :=
  ⟨rfl, rfl, rfl, rfl, rfl, rfl, rfl, rfl⟩

/-- C12: for every source vector whose live range lies inside its buffer, the copy constructor
succeeds and yields a vector whose size is the source's size, whose capacity is the source's
size (whatever the source's capacity), whose buffer has exactly that many slots, and whose
elements are the source's live elements, index by index. The source is passed by const
reference: it is an argument of the call only, and nothing of it is written. -/
theorem ctor_copy_spec [Inhabited α] (junk : Nat → α) (other : SimpleVector α)
    (h : other.size_ ≤ other.allocated) :
    ∃ v, ctor_copy junk other = .ok v ∧ v.size_ = other.size_ ∧ v.capacity_ = other.size_ ∧
      v.allocated = other.size_ ∧ v.elements = other.elements ∧
      (∀ i, i < other.size_ → v.subscript i = other.subscript i) := by
  have hlen : other.elements.length = other.size_ := length_elements other h
  refine ⟨_, ctor_copy_ok junk other h, rfl, rfl, hlen, ?_, ?_⟩
  · show other.elements.take other.size_ = other.elements
    exact List.take_of_length_le (by omega)
  · intro i hi
    rw [subscript_of_lt other i hi]
    simp only [subscript, ArrayPtr.read]

/-- C12, on a source that holds 1, 2, 3 in a buffer of five slots (capacity 5). -/
theorem ctor_copy_spec_witness :
    ∃ v, ctor_copy (fun i => 100 + i) (⟨⟨[1, 2, 3, 7, 8]⟩, 3, 5⟩ : SimpleVector Nat) = .ok v ∧
      v.size_ = (⟨⟨[1, 2, 3, 7, 8]⟩, 3, 5⟩ : SimpleVector Nat).size_ ∧
      v.capacity_ = (⟨⟨[1, 2, 3, 7, 8]⟩, 3, 5⟩ : SimpleVector Nat).size_ ∧
      v.allocated = (⟨⟨[1, 2, 3, 7, 8]⟩, 3, 5⟩ : SimpleVector Nat).size_ ∧
      v.elements = (⟨⟨[1, 2, 3, 7, 8]⟩, 3, 5⟩ : SimpleVector Nat).elements ∧
      (∀ i, i < (⟨⟨[1, 2, 3, 7, 8]⟩, 3, 5⟩ : SimpleVector Nat).size_ →
        v.subscript i = (⟨⟨[1, 2, 3, 7, 8]⟩, 3, 5⟩ : SimpleVector Nat).subscript i) :=
  ctor_copy_spec (fun i => 100 + i) ⟨⟨[1, 2, 3, 7, 8]⟩, 3, 5⟩ (by decide)

/-- C17: for every vector, `PopBack` on a non-empty vector lowers the size by one and leaves the
capacity, the buffer and hence the elements below the new size as they were; on an empty vector
it returns the vector unchanged. It has no failing outcome: the result is always a vector. -/
theorem PopBack_spec (v : SimpleVector α) :
    (v.size_ ≠ 0 → (PopBack v).size_ = v.size_ - 1 ∧ (PopBack v).capacity_ = v.capacity_ ∧
      (PopBack v).array_vector_ = v.array_vector_ ∧
      (PopBack v).elements = v.elements.take (v.size_ - 1) ∧
      (∀ i, i < v.size_ - 1 → (PopBack v).subscript i = v.subscript i)) ∧
    (v.size_ = 0 → PopBack v = v) := by
  constructor
  · intro h
    have hE : v.IsEmpty = false := by simp [IsEmpty, h]
    have hp : PopBack v = { v with size_ := v.size_ - 1 } := by simp [PopBack, hE]
    rw [hp]
    refine ⟨rfl, rfl, rfl, ?_, fun _ _ => rfl⟩
    show v.array_vector_.slots.take (v.size_ - 1) = (v.array_vector_.slots.take v.size_).take _
    rw [List.take_take, Nat.min_eq_left (Nat.sub_le _ _)]
  · intro h
    simp [PopBack, IsEmpty, h]

/-- C17, on the vector 1, 2, 3 and on the default-constructed vector. -/
theorem PopBack_spec_witness :
    ((PopBack (⟨⟨[1, 2, 3]⟩, 3, 3⟩ : SimpleVector Nat)).size_ = 3 - 1 ∧
      (PopBack (⟨⟨[1, 2, 3]⟩, 3, 3⟩ : SimpleVector Nat)).capacity_ = 3 ∧
      (PopBack (⟨⟨[1, 2, 3]⟩, 3, 3⟩ : SimpleVector Nat)).elements = [1, 2]) ∧
    PopBack (ctor_default : SimpleVector Nat) = ctor_default :=
  ⟨⟨((PopBack_spec (⟨⟨[1, 2, 3]⟩, 3, 3⟩ : SimpleVector Nat)).1 (by decide)).1,
    ((PopBack_spec (⟨⟨[1, 2, 3]⟩, 3, 3⟩ : SimpleVector Nat)).1 (by decide)).2.1,
    ((PopBack_spec (⟨⟨[1, 2, 3]⟩, 3, 3⟩ : SimpleVector Nat)).1 (by decide)).2.2.2.1⟩,
   (PopBack_spec (ctor_default : SimpleVector Nat)).2 rfl⟩

/-- C18 (the statement as written fails): on a vector of size 3, `At(5)` and `At(7)` fail with
one and the same error, although the indices differ. -/
theorem At_errors_not_distinguishable :
    (5 : Nat) ≠ 7 ∧
    (At (⟨⟨[1, 2, 3]⟩, 3, 3⟩ : SimpleVector Nat) 5).1
      = (At (⟨⟨[1, 2, 3]⟩, 3, 3⟩ : SimpleVector Nat) 7).1 ∧
    At_const (⟨⟨[1, 2, 3]⟩, 3, 3⟩ : SimpleVector Nat) 5
      = At_const (⟨⟨[1, 2, 3]⟩, 3, 3⟩ : SimpleVector Nat) 7 ∧
    ¬ (∀ (v : SimpleVector Nat) (i j : Nat), i ≥ v.size_ → j ≥ v.size_ → i ≠ j →
        (At v i).1 ≠ (At v j).1) := by
  refine ⟨by decide, rfl, rfl, ?_⟩
  intro h
  exact h ⟨⟨[1, 2, 3]⟩, 3, 3⟩ 5 7 (by decide) (by decide) (by decide) rfl

/-- C18 (as amended): whenever `At(index)` fails because the index is not below the size, mutable
or const, the error is `std::out_of_range` with the fixed text "out of range"; it does not
depend on the index, so any two such failures are the same error. -/
theorem At_error_is_fixed (v : SimpleVector α) (i j : Nat) (hi : i ≥ v.size_)
    (hj : j ≥ v.size_) :
    (At v i).1 = .error (.out_of_range "out of range") ∧
    At_const v i = .error (.out_of_range "out of range") ∧
    (At v i).1 = (At v j).1 ∧ At_const v i = At_const v j := by
  simp [At, At_const, hi, hj, throw, throwThe, MonadExceptOf.throw]

/-- C18 as amended, at the indices 5 and 7 of a vector of size 3. -/
theorem At_error_is_fixed_witness :
    (At (⟨⟨[1, 2, 3]⟩, 3, 3⟩ : SimpleVector Nat) 5).1 = .error (.out_of_range "out of range") ∧
    At_const (⟨⟨[1, 2, 3]⟩, 3, 3⟩ : SimpleVector Nat) 5
      = .error (.out_of_range "out of range") ∧
    (At (⟨⟨[1, 2, 3]⟩, 3, 3⟩ : SimpleVector Nat) 5).1
      = (At (⟨⟨[1, 2, 3]⟩, 3, 3⟩ : SimpleVector Nat) 7).1 ∧
    At_const (⟨⟨[1, 2, 3]⟩, 3, 3⟩ : SimpleVector Nat) 5
      = At_const (⟨⟨[1, 2, 3]⟩, 3, 3⟩ : SimpleVector Nat) 7 :=
  At_error_is_fixed ⟨⟨[1, 2, 3]⟩, 3, 3⟩ 5 7 (by decide) (by decide)

end SimpleVector

namespace SimpleVector
variable {α : Type}

/-- C14: for all vectors `a` and `b` whose live ranges lie inside their buffers, `a == b` is
defined and is true exactly when the sizes are equal and `a[i] == b[i]` for every index below the
size; the result is the same for any other pair of vectors with the same sizes and live
elements, whatever their capacities and whatever their slots from the size upwards hold. -/
theorem operator_eq_spec [BEq α] (a b : SimpleVector α) (ha : a.size_ ≤ a.allocated)
    (hb : b.size_ ≤ b.allocated) :
    ∃ r, operator_eq a b = .ok r ∧
      (r = true ↔ a.size_ = b.size_ ∧
        ∀ i, i < a.size_ → ∃ x y, a.subscript i = .ok x ∧ b.subscript i = .ok y ∧
          (x == y) = true) ∧
      (∀ a' b' : SimpleVector α, a'.size_ = a.size_ → a'.elements = a.elements →
        b'.size_ = b.size_ → b'.elements = b.elements → operator_eq a' b' = .ok r) := by
  have la := length_elements a ha
  have lb := length_elements b hb
  refine ⟨_, operator_eq_ok a b ha hb, ?_, ?_⟩
  · rw [list_beq_iff, la, lb]
    constructor
    · rintro ⟨hs, hall⟩
      refine ⟨hs, fun i hi => ?_⟩
      obtain ⟨x, y, hx, hy, hxy⟩ := hall i hi
      exact ⟨x, y, (subscript_eq_ok_iff a i x hi).2 hx,
        (subscript_eq_ok_iff b i y (by omega)).2 hy, hxy⟩
    · rintro ⟨hs, hall⟩
      refine ⟨hs, fun i hi => ?_⟩
      obtain ⟨x, y, hx, hy, hxy⟩ := hall i hi
      exact ⟨x, y, (subscript_eq_ok_iff a i x hi).1 hx,
        (subscript_eq_ok_iff b i y (by omega)).1 hy, hxy⟩
  · intro a' b' hsa hea hsb heb
    rw [operator_eq_ok a' b' (allocated_of_same_elements a a' ha hsa hea)
      (allocated_of_same_elements b b' hb hsb heb), hea, heb]

/-- C14, on 1, 2, 3 with capacity 3 against 1, 2, 3 in a buffer of five slots, capacity 5. -/
theorem operator_eq_spec_witness :
    ∃ r, operator_eq (⟨⟨[1, 2, 3]⟩, 3, 3⟩ : SimpleVector Nat) ⟨⟨[1, 2, 3, 7, 8]⟩, 3, 5⟩ = .ok r ∧
      (r = true ↔ (⟨⟨[1, 2, 3]⟩, 3, 3⟩ : SimpleVector Nat).size_
          = (⟨⟨[1, 2, 3, 7, 8]⟩, 3, 5⟩ : SimpleVector Nat).size_ ∧
        ∀ i, i < (⟨⟨[1, 2, 3]⟩, 3, 3⟩ : SimpleVector Nat).size_ →
          ∃ x y, (⟨⟨[1, 2, 3]⟩, 3, 3⟩ : SimpleVector Nat).subscript i = .ok x ∧
            (⟨⟨[1, 2, 3, 7, 8]⟩, 3, 5⟩ : SimpleVector Nat).subscript i = .ok y ∧
            (x == y) = true) ∧
      (∀ a' b' : SimpleVector Nat, a'.size_ = (⟨⟨[1, 2, 3]⟩, 3, 3⟩ : SimpleVector Nat).size_ →
        a'.elements = (⟨⟨[1, 2, 3]⟩, 3, 3⟩ : SimpleVector Nat).elements →
        b'.size_ = (⟨⟨[1, 2, 3, 7, 8]⟩, 3, 5⟩ : SimpleVector Nat).size_ →
        b'.elements = (⟨⟨[1, 2, 3, 7, 8]⟩, 3, 5⟩ : SimpleVector Nat).elements →
        operator_eq a' b' = .ok r) :=
  operator_eq_spec ⟨⟨[1, 2, 3]⟩, 3, 3⟩ ⟨⟨[1, 2, 3, 7, 8]⟩, 3, 5⟩ (by decide) (by decide)

end SimpleVector

namespace SimpleVector
variable {α : Type}

/-- C13: for a destination and a source whose live ranges lie inside their buffers, and an
element `==` that is reflexive, copy assignment succeeds and leaves the destination value-equal
to the source: the sizes are equal, the elements are pairwise `==` in index order, and the
container's own `==` says so. This holds when the guard skips the assignment (the destination
is then left as it was) and when it does not (the destination then holds copies of the source's
live elements in a buffer of exactly that size); where `==` holds only between equal values, the
live elements are the source's in both cases. The source is passed by const reference: it is an
argument of the call only, and nothing of it is written. -/
theorem assign_copy_spec [BEq α] [Inhabited α] (junk : Nat → α) (dst src : SimpleVector α)
    (hrefl : ∀ x : α, (x == x) = true) (hd : dst.size_ ≤ dst.allocated)
    (hs : src.size_ ≤ src.allocated) :
    ∃ d', assign_copy junk dst src = .ok d' ∧ d'.size_ = src.size_ ∧
      (∀ i, i < src.size_ → ∃ x y, d'.subscript i = .ok x ∧ src.subscript i = .ok y ∧
        (x == y) = true) ∧
      operator_eq d' src = .ok true ∧
      (operator_eq dst src = .ok true → d' = dst) ∧
      (operator_eq dst src = .ok false → d'.elements = src.elements ∧
        d'.capacity_ = src.size_) ∧
      ((∀ x y : α, (x == y) = true → x = y) → d'.elements = src.elements) := by
  have ld := length_elements dst hd
  have ls := length_elements src hs
  have hcopy : (⟨⟨src.elements⟩, src.size_, src.size_⟩ : SimpleVector α).elements
      = src.elements := List.take_of_length_le (by show src.elements.length ≤ src.size_; omega)
  have key : ∀ d' : SimpleVector α, d'.size_ ≤ d'.allocated →
      (d'.elements == src.elements) = true →
      d'.size_ = src.size_ ∧
      (∀ i, i < src.size_ → ∃ x y, d'.subscript i = .ok x ∧ src.subscript i = .ok y ∧
        (x == y) = true) ∧
      operator_eq d' src = .ok true := by
    intro d' hd' hb
    have hsz : d'.size_ = src.size_ := by
      have := ((list_beq_iff _ _).1 hb).1
      rw [length_elements d' hd', ls] at this
      exact this
    refine ⟨hsz, fun i hi => ?_, by rw [operator_eq_ok d' src hd' hs, hb]⟩
    obtain ⟨x, y, hx, hy, hxy⟩ := ((list_beq_iff _ _).1 hb).2 i
      (by rw [length_elements d' hd']; omega)
    exact ⟨x, y, (subscript_eq_ok_iff d' i x (by omega)).2 hx,
      (subscript_eq_ok_iff src i y hi).2 hy, hxy⟩
  refine ⟨_, assign_copy_ok junk dst src hd hs, ?_⟩
  rw [operator_eq_ok dst src hd hs]
  by_cases hb : (dst.elements == src.elements) = true
  · rw [if_pos hb]
    obtain ⟨k1, k2, k3⟩ := key dst hd hb
    refine ⟨k1, k2, k3, fun _ => rfl, ?_, fun hlaw => list_eq_of_beq hlaw _ _ hb⟩
    intro h
    rw [hb] at h
    cases h
  · rw [if_neg hb]
    obtain ⟨k1, k2, k3⟩ := key ⟨⟨src.elements⟩, src.size_, src.size_⟩
      (by show src.size_ ≤ src.elements.length; omega)
      (by rw [hcopy]; exact list_beq_self hrefl _)
    refine ⟨k1, k2, k3, ?_, fun _ => ⟨hcopy, rfl⟩, fun _ => hcopy⟩
    intro h
    injection h with h
    exact absurd h hb

/-- C13, with the guard skipping (1, 2, 3 assigned to 1, 2, 3 held in a larger buffer) and with
the guard not skipping (1, 2 assigned to the default-constructed vector). -/
theorem assign_copy_spec_witness :
    (∃ d', assign_copy (fun i => 100 + i) (⟨⟨[1, 2, 3, 7]⟩, 3, 4⟩ : SimpleVector Nat)
        ⟨⟨[1, 2, 3]⟩, 3, 3⟩ = .ok d' ∧ d'.size_ = 3 ∧
      operator_eq d' ⟨⟨[1, 2, 3]⟩, 3, 3⟩ = .ok true ∧
      d' = ⟨⟨[1, 2, 3, 7]⟩, 3, 4⟩) ∧
    (∃ d', assign_copy (fun i => 100 + i) (ctor_default : SimpleVector Nat)
        ⟨⟨[1, 2, 9]⟩, 2, 3⟩ = .ok d' ∧ d'.size_ = 2 ∧
      operator_eq d' ⟨⟨[1, 2, 9]⟩, 2, 3⟩ = .ok true ∧
      d'.elements = [1, 2] ∧ d'.capacity_ = 2) := by
  constructor
  · obtain ⟨d', e, s, -, q, g, -, -⟩ := assign_copy_spec (fun i => 100 + i)
      (⟨⟨[1, 2, 3, 7]⟩, 3, 4⟩ : SimpleVector Nat) ⟨⟨[1, 2, 3]⟩, 3, 3⟩ (by simp)
      (by decide) (by decide)
    exact ⟨d', e, s, q, g (by decide)⟩
  · obtain ⟨d', e, s, -, q, -, g, -⟩ := assign_copy_spec (fun i => 100 + i)
      (ctor_default : SimpleVector Nat) ⟨⟨[1, 2, 9]⟩, 2, 3⟩ (by simp)
      (by decide) (by decide)
    exact ⟨d', e, s, q, g (by decide)⟩

end SimpleVector

namespace SimpleVector
variable {α : Type}

/-- C15: for all vectors `a` and `b` whose live ranges lie inside their buffers, over an element
type whose `==` is the equivalence of its `<` (neither value less than the other), `a < b` is
defined and is true exactly when either some index `i` below both sizes has `a[j] == b[j]` for
all `j < i` and `a[i] < b[i]`, or `a` is shorter than `b` and `a[j] == b[j]` for every index of
`a`. -/
theorem operator_lt_spec [BEq α] (less : α → α → Bool) (a b : SimpleVector α)
    (heq : ∀ x y : α, (x == y) = true ↔ (less x y = false ∧ less y x = false))
    (ha : a.size_ ≤ a.allocated) (hb : b.size_ ≤ b.allocated) :
    ∃ r, operator_lt less a b = .ok r ∧
      (r = true ↔
        (∃ i, i < min a.size_ b.size_ ∧
          (∀ j, j < i → ∃ x y, a.subscript j = .ok x ∧ b.subscript j = .ok y ∧
            (x == y) = true) ∧
          ∃ x y, a.subscript i = .ok x ∧ b.subscript i = .ok y ∧ less x y = true) ∨
        (a.size_ < b.size_ ∧
          ∀ j, j < a.size_ → ∃ x y, a.subscript j = .ok x ∧ b.subscript j = .ok y ∧
            (x == y) = true)) := by
  have la := length_elements a ha
  have lb := length_elements b hb
  refine ⟨_, operator_lt_ok less a b ha hb, ?_⟩
  rw [lexLess_iff less heq, la, lb]
  constructor
  · rintro (⟨i, hi, hpre, hlt⟩ | ⟨hlen, hall⟩)
    · have hia : i < a.size_ := by omega
      have hib : i < b.size_ := by omega
      exact Or.inl ⟨i, hi, fun j hj => (pair_at_iff a b j _ (by omega) (by omega)).1 (hpre j hj),
        (pair_at_iff a b i _ hia hib).1 hlt⟩
    · exact Or.inr ⟨hlen, fun j hj => (pair_at_iff a b j _ hj (by omega)).1 (hall j hj)⟩
  · rintro (⟨i, hi, hpre, hlt⟩ | ⟨hlen, hall⟩)
    · have hia : i < a.size_ := by omega
      have hib : i < b.size_ := by omega
      exact Or.inl ⟨i, hi, fun j hj => (pair_at_iff a b j _ (by omega) (by omega)).2 (hpre j hj),
        (pair_at_iff a b i _ hia hib).2 hlt⟩
    · exact Or.inr ⟨hlen, fun j hj => (pair_at_iff a b j _ hj (by omega)).2 (hall j hj)⟩

/-- C15, at the examples of the design: 1, 2, 3 is less than 1, 2, 4, and 1, 2 is less than
1, 2, 3, each by the characterisation of the theorem. -/
theorem operator_lt_spec_witness :
    operator_lt (fun x y : Nat => decide (x < y)) (⟨⟨[1, 2, 3]⟩, 3, 3⟩ : SimpleVector Nat)
      ⟨⟨[1, 2, 4]⟩, 3, 3⟩ = .ok true ∧
    operator_lt (fun x y : Nat => decide (x < y)) (⟨⟨[1, 2]⟩, 2, 2⟩ : SimpleVector Nat)
      ⟨⟨[1, 2, 3]⟩, 3, 3⟩ = .ok true := by
  have heq : ∀ x y : Nat, (x == y) = true ↔ (decide (x < y) = false ∧ decide (y < x) = false) := by
    intro x y
    simp only [beq_iff_eq, decide_eq_false_iff_not]
    omega
  constructor
  · obtain ⟨r, e, h⟩ := operator_lt_spec (fun x y : Nat => decide (x < y))
      (⟨⟨[1, 2, 3]⟩, 3, 3⟩ : SimpleVector Nat) ⟨⟨[1, 2, 4]⟩, 3, 3⟩ heq (by decide) (by decide)
    rw [e, h.2 (Or.inl ⟨2, by decide, fun j hj => ?_, 3, 4, by decide, by decide, by decide⟩)]
    have : j = 0 ∨ j = 1 := by omega
    rcases this with rfl | rfl
    · exact ⟨1, 1, by decide, by decide, by decide⟩
    · exact ⟨2, 2, by decide, by decide, by decide⟩
  · obtain ⟨r, e, h⟩ := operator_lt_spec (fun x y : Nat => decide (x < y))
      (⟨⟨[1, 2]⟩, 2, 2⟩ : SimpleVector Nat) ⟨⟨[1, 2, 3]⟩, 3, 3⟩ heq (by decide) (by decide)
    rw [e, h.2 (Or.inr ⟨by decide, fun j hj => ?_⟩)]
    have : j = 0 ∨ j = 1 := by
      have hj' : j < 2 := hj
      omega
    rcases this with rfl | rfl
    · exact ⟨1, 1, by decide, by decide, by decide⟩
    · exact ⟨2, 2, by decide, by decide, by decide⟩

/-- C20: for an element type whose `<` is a strict total order and whose `==` holds exactly
between equal values, and all vectors `a` and `b` whose live ranges lie inside their buffers:
the six comparisons are defined, `a >= b` is true exactly when `b <= a` is, `a != b` is the
negation of `a == b`, and exactly one of `a < b`, `a == b`, `a > b` is true. -/
theorem operators_consistent [BEq α] (less : α → α → Bool) (a b : SimpleVector α)
    (hlaw : ∀ x y : α, (x == y) = true ↔ x = y) (hirr : ∀ x : α, less x x = false)
    (htrans : ∀ x y z : α, less x y = true → less y z = true → less x z = true)
    (htot : ∀ x y : α, x ≠ y → less x y = true ∨ less y x = true)
    (ha : a.size_ ≤ a.allocated) (hb : b.size_ ≤ b.allocated) :
    ∃ lt eq gt ge le_ba : Bool,
      operator_lt less a b = .ok lt ∧ operator_eq a b = .ok eq ∧
      operator_gt less a b = .ok gt ∧ operator_ge less a b = .ok ge ∧
      operator_le less b a = .ok le_ba ∧ operator_ne a b = .ok (!eq) ∧
      (ge = true ↔ le_ba = true) ∧
      ((lt = true ∧ eq = false ∧ gt = false) ∨ (lt = false ∧ eq = true ∧ gt = false) ∨
        (lt = false ∧ eq = false ∧ gt = true)) := by
  have hlt := operator_lt_ok less a b ha hb
  have hgt := operator_lt_ok less b a hb ha
  have heq := operator_eq_ok a b ha hb
  have heq' := operator_eq_ok b a hb ha
  have hcomm := list_beq_comm hlaw a.elements b.elements
  have tri := lexLess_trichotomy less hlaw hirr htrans htot a.elements b.elements
  refine ⟨lexLess less a.elements b.elements, a.elements == b.elements,
    lexLess less b.elements a.elements, !lexLess less a.elements b.elements,
    (lexLess less b.elements a.elements || (a.elements == b.elements)),
    hlt, heq, hgt, ?_, ?_, ?_, ?_, tri⟩
  · simp only [operator_ge, hlt, bind, Except.bind, pure, Except.pure]
  · simp only [operator_le, hgt, heq', hcomm, bind, Except.bind, pure, Except.pure]
    cases lexLess less b.elements a.elements <;> rfl
  · simp only [operator_ne, heq, bind, Except.bind, pure, Except.pure]
  · rcases tri with ⟨h1, h2, h3⟩ | ⟨h1, h2, h3⟩ | ⟨h1, h2, h3⟩ <;> simp [h1, h2, h3]

/-- C20, on the pairs (1, 2, 3 and 1, 2, 4), (1, 2 and 1, 2) and (2 and 1, 5) of vectors of
natural numbers. -/
theorem operators_consistent_witness :
    (∃ lt eq gt ge le_ba : Bool,
      operator_lt (fun x y : Nat => decide (x < y)) (⟨⟨[1, 2, 3]⟩, 3, 3⟩ : SimpleVector Nat)
        ⟨⟨[1, 2, 4]⟩, 3, 3⟩ = .ok lt ∧
      operator_eq (⟨⟨[1, 2, 3]⟩, 3, 3⟩ : SimpleVector Nat) ⟨⟨[1, 2, 4]⟩, 3, 3⟩ = .ok eq ∧
      operator_gt (fun x y : Nat => decide (x < y)) (⟨⟨[1, 2, 3]⟩, 3, 3⟩ : SimpleVector Nat)
        ⟨⟨[1, 2, 4]⟩, 3, 3⟩ = .ok gt ∧
      operator_ge (fun x y : Nat => decide (x < y)) (⟨⟨[1, 2, 3]⟩, 3, 3⟩ : SimpleVector Nat)
        ⟨⟨[1, 2, 4]⟩, 3, 3⟩ = .ok ge ∧
      operator_le (fun x y : Nat => decide (x < y)) (⟨⟨[1, 2, 4]⟩, 3, 3⟩ : SimpleVector Nat)
        ⟨⟨[1, 2, 3]⟩, 3, 3⟩ = .ok le_ba ∧
      operator_ne (⟨⟨[1, 2, 3]⟩, 3, 3⟩ : SimpleVector Nat) ⟨⟨[1, 2, 4]⟩, 3, 3⟩ = .ok (!eq) ∧
      (ge = true ↔ le_ba = true) ∧
      ((lt = true ∧ eq = false ∧ gt = false) ∨ (lt = false ∧ eq = true ∧ gt = false) ∨
        (lt = false ∧ eq = false ∧ gt = true))) ∧
    operator_ge (fun x y : Nat => decide (x < y)) (⟨⟨[1, 2]⟩, 2, 2⟩ : SimpleVector Nat)
      ⟨⟨[1, 2]⟩, 2, 2⟩ = .ok true ∧
    operator_gt (fun x y : Nat => decide (x < y)) (⟨⟨[2]⟩, 1, 1⟩ : SimpleVector Nat)
      ⟨⟨[1, 5]⟩, 2, 2⟩ = .ok true :=
  ⟨operators_consistent (fun x y : Nat => decide (x < y)) ⟨⟨[1, 2, 3]⟩, 3, 3⟩ ⟨⟨[1, 2, 4]⟩, 3, 3⟩
      (by simp) (by simp)
      (fun x y z h1 h2 => by
        simp only [decide_eq_true_eq] at *
        omega)
      (fun x y h => by
        simp only [decide_eq_true_eq]
        omega)
      (by decide) (by decide),
    by decide, by decide⟩

end SimpleVector

namespace SimpleVector
variable {α : Type}

/-- C16: for every `n >= 1`, `n` successive `PushBack(Type&&)` calls on a default-constructed
vector succeed and end with size `n`, with the pushed values as elements, and with capacity
`10 * 2 ^ k` for the least `k` with `10 * 2 ^ k >= n`, which is also the number of slots really
allocated; exactly `k + 1` of the calls replaced the buffer (changed the allocation), the same
calls that changed the capacity, and `k + 1` is at most `floor(log2 n) + 1`. -/
theorem PushBack_growth_law (junk : Nat → α) (xs : List α) (hn : 1 ≤ xs.length) :
    ∃ w k, PushBack_move_all_counting junk ctor_default xs = .ok (w, k + 1) ∧
      PushBack_move_all junk ctor_default xs = .ok w ∧ w.size_ = xs.length ∧
      w.capacity_ = 10 * 2 ^ k ∧ xs.length ≤ 10 * 2 ^ k ∧
      (∀ j, j < k → 10 * 2 ^ j < xs.length) ∧ k + 1 ≤ Nat.log 2 xs.length + 1 ∧
      PushBack_move_all_replacing junk ctor_default xs = .ok (w, k + 1) ∧
      w.allocated = 10 * 2 ^ k ∧ w.elements = xs := by
  obtain ⟨wr, c, er, ec', ar⟩ := PushBack_move_all_replacing_facts junk xs
    (ctor_default : SimpleVector α) (Nat.le_refl _) rfl
  obtain ⟨we, ee, -, ele, -, -⟩ := PushBack_move_all_facts junk xs
    (ctor_default : SimpleVector α) (Nat.le_refl _) (Nat.zero_le _)
  cases xs with
  | nil => simp at hn
  | cons x xs =>
    obtain ⟨v1, e1, s1, -, hsc1, hca1, c1⟩ := PushBack_copy_facts junk 10
      (ctor_default : SimpleVector α) x (by decide) (Nat.le_refl _) (Nat.zero_le _)
    have hc1 : v1.capacity_ = 10 * 2 ^ 0 := by rw [c1]; rfl
    have hs1 : v1.size_ = 1 := by rw [s1]; rfl
    obtain ⟨w, k, ec, ea, -, sw, cw, lw⟩ := PushBack_move_all_counting_facts junk xs v1 0
      hsc1 hca1 hc1 (fun j hj => absurd hj (Nat.not_lt_zero j))
    have hsize : w.size_ = (x :: xs).length := by rw [sw, hs1, List.length_cons]; omega
    have hwf : w.size_ ≤ w.capacity_ := by
      obtain ⟨w', e', -, -, h1, -⟩ := PushBack_move_all_facts junk xs v1 hsc1 hca1
      rw [ea] at e'
      cases e'
      exact h1
    have hcount : PushBack_move_all_counting junk ctor_default (x :: xs) = .ok (w, k + 1) := by
      have hne : v1.GetCapacity ≠ (ctor_default : SimpleVector α).GetCapacity := by
        simp only [GetCapacity, hc1, ctor_default]
        intro h
        cases h
      simp only [PushBack_move_all_counting, PushBack_move_eq_copy, e1, bind, Except.bind, ec,
        pure, Except.pure, hne, ne_eq, not_false_eq_true, if_true, Nat.sub_zero]
    have hall : PushBack_move_all junk ctor_default (x :: xs) = .ok w := by
      simp only [PushBack_move_all, PushBack_move_eq_copy, e1, bind, Except.bind]
      exact ea
    rw [hcount] at ec'
    cases ec'
    rw [hall] at ee
    cases ee
    refine ⟨_, k, hcount, hall, hsize, cw, by rw [← hsize, ← cw]; exact hwf,
      fun j hj => by rw [← hsize]; exact lw j hj, ?_, er, by rw [ar, cw], ?_⟩
    · apply Nat.succ_le_succ
      apply Nat.le_log_of_pow_le (by decide)
      cases k with
      | zero => simp
      | succ k =>
        have h := lw k (Nat.lt_succ_self k)
        rw [hsize] at h
        rw [Nat.pow_succ]
        omega
    · rw [ele]
      simp [ctor_default, elements]

/-- C16, at eleven calls: the buffer has 20 = 10 * 2 ^ 1 slots, holds the eleven values, and
two calls replaced it. -/
theorem PushBack_growth_law_witness :
    (∃ w k, PushBack_move_all_counting (fun i => 100 + i) (ctor_default : SimpleVector Nat)
        (List.range 11) = .ok (w, k + 1) ∧
      PushBack_move_all (fun i => 100 + i) ctor_default (List.range 11) = .ok w ∧
      w.size_ = (List.range 11).length ∧ w.capacity_ = 10 * 2 ^ k ∧
      (List.range 11).length ≤ 10 * 2 ^ k ∧
      (∀ j, j < k → 10 * 2 ^ j < (List.range 11).length) ∧
      k + 1 ≤ Nat.log 2 (List.range 11).length + 1 ∧
      PushBack_move_all_replacing (fun i => 100 + i) (ctor_default : SimpleVector Nat)
        (List.range 11) = .ok (w, k + 1) ∧
      w.allocated = 10 * 2 ^ k ∧ w.elements = List.range 11) ∧
    (PushBack_move_all_counting (fun i => 100 + i) (ctor_default : SimpleVector Nat)
        (List.range 11)).map (fun p => (p.1.size_, p.1.capacity_, p.2)) = .ok (11, 20, 2) ∧
    (PushBack_move_all_replacing (fun i => 100 + i) (ctor_default : SimpleVector Nat)
        (List.range 11)).map (fun p => (p.1.allocated, p.1.elements, p.2))
      = .ok (20, List.range 11, 2) :=
  ⟨PushBack_growth_law (fun i => 100 + i) (List.range 11) (by decide), by decide, by decide⟩

end SimpleVector

namespace SimpleVector
variable {α : Type}

/-- C19 (the code at the failing input): on the full vector 1, 2, 3 (size 3, capacity 3) and
index 1, `Insert` of either overload replaces the buffer and then uses the position that points
into the released one; there is no defined result, no returned iterator to erase at, and the
sequence "insert, then erase" does not restore the vector. -/
theorem Insert_then_Erase_full_interior (junk : Nat → Nat) (new_capacity : Nat) :
    (Insert_move junk ⟨⟨[1, 2, 3]⟩, 3, 3⟩ 1 9).bind (fun p => Erase p.1 p.2)
      = .error .undefined ∧
    (Insert_copy junk new_capacity ⟨⟨[1, 2, 3]⟩, 3, 3⟩ 1 9).bind (fun p => Erase p.1 p.2)
      = .error .undefined := by
  rw [Insert_move_eq_copy,
    Insert_copy_full_interior junk 10 ⟨⟨[1, 2, 3]⟩, 3, 3⟩ 1 9 (by decide) (by decide)
      (by decide) rfl,
    Insert_copy_full_interior junk new_capacity ⟨⟨[1, 2, 3]⟩, 3, 3⟩ 1 9 (by decide) (by decide)
      (by decide) rfl]
  exact ⟨rfl, rfl⟩

end SimpleVector
